import Mathlib

/-!
Verification development for the FactorioCalc recipe-algebra engine.

The embedding mirrors `src/recipe.ts` (classes `ResourceMap` and `Recipe`)
and `almostLeastCommonMultiple` from the utilities module.  JavaScript `Map`
objects are modelled as insertion-ordered association lists with unique keys
(`Map.set` on an existing key updates the value in place, otherwise appends;
`Map.delete` removes the entry; iteration follows insertion order).
Quantities are JavaScript numbers in the source; they are modelled as exact
rationals.  The two stateful `while` loops of the source are modelled with an
explicit fuel parameter: a result of `none` means the loop was still running
when the fuel ran out (in particular, `∀ fuel, ... = none` renders
divergence).  `Math.floor(x / y)` with `y = 0` produces `Infinity`/`NaN` in
JavaScript; where that matters (`applyConsumerRecipe`) the division is
modelled as `jsFloorDiv`, an `Option`-valued floor division whose `none`
stands for a non-finite JavaScript result.
-/

namespace FactorioCalc

/-- Resource identifiers: the source uses a closed enumeration `ResourceTypes`
with no behaviour of its own; we model it by natural numbers. -/
abbrev ResourceTypes : Type := ℕ

/-- Value of the first entry with the given key, `0` when absent.  Models the
read path of `ResourceMap.resourceCount` on a JavaScript `Map`. -/
def lookupQ (r : ResourceTypes) : List (ResourceTypes × ℚ) → ℚ
  | [] => 0
  | p :: l => if p.1 = r then p.2 else lookupQ r l

/-- Key membership, modelling `Map.has`. -/
def memKey (r : ResourceTypes) : List (ResourceTypes × ℚ) → Bool
  | [] => false
  | p :: l => if p.1 = r then true else memKey r l

/-- Removal of the entries with the given key, modelling `Map.delete`
(a JavaScript `Map` holds at most one entry per key). -/
def eraseKey (r : ResourceTypes) : List (ResourceTypes × ℚ) → List (ResourceTypes × ℚ)
  | [] => []
  | p :: l => if p.1 = r then eraseKey r l else p :: eraseKey r l

/-- In-place increment of the value stored at the given key, modelling
`Map.set(key, Map.get(key) + count)` (position of the entry is kept). -/
def bumpKey (r : ResourceTypes) (c : ℚ) : List (ResourceTypes × ℚ) → List (ResourceTypes × ℚ)
  | [] => []
  | p :: l => if p.1 = r then (p.1, p.2 + c) :: bumpKey r c l else p :: bumpKey r c l

/-- Pointwise scaling of all stored values. -/
def scaleVals (k : ℚ) : List (ResourceTypes × ℚ) → List (ResourceTypes × ℚ)
  | [] => []
  | p :: l => (p.1, p.2 * k) :: scaleVals k l

/-- The `ResourceMap` class of `src/recipe.ts`: a wrapper around a
`Map<ResourceTypes, number>`. -/
structure ResourceMap where
  map : List (ResourceTypes × ℚ)
deriving DecidableEq

/-- `ResourceMap.removeResource`. -/
def ResourceMap.removeResource (m : ResourceMap) (r : ResourceTypes) : ResourceMap :=
  ⟨eraseKey r m.map⟩

/-- `ResourceMap.hasResource`. -/
def ResourceMap.hasResource (m : ResourceMap) (r : ResourceTypes) : Bool :=
  memKey r m.map

/-- `ResourceMap.resourceCount`: the stored count, `0` when absent. -/
def ResourceMap.resourceCount (m : ResourceMap) (r : ResourceTypes) : ℚ :=
  lookupQ r m.map

/-- `ResourceMap.addResource`: a zero delta is a no-op; otherwise the entry is
incremented in place when present and appended when absent. -/
def ResourceMap.addResource (m : ResourceMap) (r : ResourceTypes) (count : ℚ) : ResourceMap :=
  if count = 0 then m
  else if m.hasResource r then ⟨bumpKey r count m.map⟩
  else ⟨m.map ++ [(r, count)]⟩

/-- `ResourceMap.getResourceTypes`: the keys in insertion order. -/
def ResourceMap.getResourceTypes (m : ResourceMap) : List ResourceTypes :=
  m.map.map Prod.fst

/-- `ResourceMap.multiply`: multiplies every stored value. -/
def ResourceMap.multiply (m : ResourceMap) (k : ℚ) : ResourceMap :=
  ⟨scaleVals k m.map⟩

/-- `ResourceMap.clone` (deep copy; the identity in a pure model). -/
def ResourceMap.clone (m : ResourceMap) : ResourceMap := m

/-- Folding `addResource` over a list of entries: the body of
`ResourceMap.join` and of the copy loops in `Recipe.mergeRecipes`. -/
def ResourceMap.addAll (m : ResourceMap) (l : List (ResourceTypes × ℚ)) : ResourceMap :=
  l.foldl (fun acc p => acc.addResource p.1 p.2) m

/-- `ResourceMap.join`: adds every entry of `other` into `m`. -/
def ResourceMap.join (m other : ResourceMap) : ResourceMap :=
  m.addAll other.map

/-- Well-formedness of a ledger as a JavaScript `Map` holding the positive
quantities the engine is run on: keys are unique (automatic for a `Map`) and
every stored quantity is positive. -/
def ResourceMap.WF (m : ResourceMap) : Prop :=
  (m.map.map Prod.fst).Nodup ∧ ∀ p ∈ m.map, 0 < p.2

instance (m : ResourceMap) : Decidable m.WF := by
  unfold ResourceMap.WF; infer_instance

/-- The `Recipe` class of `src/recipe.ts`: an inputs ledger and an outputs
ledger. -/
structure Recipe where
  inputs : ResourceMap
  outputs : ResourceMap
deriving DecidableEq

/-- `Recipe.getOutputTypes`. -/
def Recipe.getOutputTypes (self : Recipe) : List ResourceTypes :=
  self.outputs.getResourceTypes

/-- `Recipe.multiply`: scales both ledgers. -/
def Recipe.multiply (self : Recipe) (k : ℚ) : Recipe :=
  ⟨self.inputs.multiply k, self.outputs.multiply k⟩

/-- `Recipe.join`: joins both ledgers of `other` into `self`. -/
def Recipe.join (self other : Recipe) : Recipe :=
  ⟨self.inputs.join other.inputs, self.outputs.join other.outputs⟩

/-- `Recipe.clone`. -/
def Recipe.clone (self : Recipe) : Recipe :=
  ⟨self.inputs.clone, self.outputs.clone⟩

/-- Well-formedness of both ledgers of a recipe. -/
def Recipe.WF (self : Recipe) : Prop :=
  self.inputs.WF ∧ self.outputs.WF

instance (self : Recipe) : Decidable self.WF := by
  unfold Recipe.WF; infer_instance

/-- The cancellation body of `Recipe.mergeRecipes` for a single consumer
input entry `(resource, inputCount)`, acting on the pair
(consumer inputs, producer outputs).  This is the loop body of the first
`for` loop of `mergeRecipes`; the loop reads each entry's count at visit
time, which equals the original count because every step touches only its
own key and a `Map` holds each key once. -/
def Recipe.mergeCancelStep (acc : ResourceMap × ResourceMap) (entry : ResourceTypes × ℚ) :
    ResourceMap × ResourceMap :=
  if acc.2.hasResource entry.1 then
    if acc.2.resourceCount entry.1 > entry.2 then
      (acc.1.removeResource entry.1, acc.2.addResource entry.1 (-entry.2))
    else if acc.2.resourceCount entry.1 = entry.2 then
      (acc.1.removeResource entry.1, acc.2.removeResource entry.1)
    else
      (acc.1.addResource entry.1 (-(acc.2.resourceCount entry.1)), acc.2.removeResource entry.1)
  else acc

/-- The first phase of `Recipe.mergeRecipes`: cancel overlapping quantity
between the consumer's inputs and the producer's outputs, one consumer input
entry at a time. -/
def Recipe.mergeCancel (consumingRecipe producingRecipe : Recipe) :
    ResourceMap × ResourceMap :=
  consumingRecipe.inputs.map.foldl Recipe.mergeCancelStep
    (consumingRecipe.inputs, producingRecipe.outputs)

/-- `Recipe.mergeRecipes`: after cancellation, the result is a clone of the
(adjusted) producer with the consumer's remaining inputs and all consumer
outputs added in. -/
def Recipe.mergeRecipes (consumingRecipe producingRecipe : Recipe) : Recipe :=
  let cancelled := Recipe.mergeCancel consumingRecipe producingRecipe
  ⟨(producingRecipe.inputs.clone).addAll cancelled.1.map,
   (cancelled.2.clone).addAll consumingRecipe.outputs.map⟩

/-- Floor division as performed by `Math.floor(x / y)` on JavaScript numbers:
`none` models a non-finite result (`y = 0` gives `Infinity` or `NaN`, whose
floor is again non-finite and in particular never `=== 0`). -/
def jsFloorDiv (x y : ℚ) : Option ℚ :=
  if y = 0 then none else some ((⌊x / y⌋ : ℤ) : ℚ)

/-- `Recipe.applyConsumerRecipe` with the consumer already resolved (catalog
lookup is external).  Returns the updated recipe and the changed flag;
`none` models the run in which the multiplier is non-finite (consumer input
count `0`): the `multiplier === 0` test fails and the recipe is scaled by an
unbounded (non-representable) multiplier. -/
def Recipe.applyConsumerRecipe (self resolvedRecipe : Recipe) (resource : ResourceTypes) :
    Option (Recipe × Bool) :=
  match jsFloorDiv (self.outputs.resourceCount resource)
      (resolvedRecipe.inputs.resourceCount resource) with
  | none => none
  | some recipeMultiplier =>
    if recipeMultiplier = 0 then some (self, false)
    else some (Recipe.mergeRecipes (resolvedRecipe.multiply recipeMultiplier) self, true)

/-- Lookup in the recipe map built by `createRecipeMap` (a
`Map<string, Recipe>`). -/
def lookupRecipe (k : String) : List (String × Recipe) → Option Recipe
  | [] => none
  | p :: l => if p.1 = k then some p.2 else lookupRecipe k l

/-- Key membership in a `Map<string, Recipe>`. -/
def memKeyS (k : String) : List (String × Recipe) → Bool
  | [] => false
  | p :: l => if p.1 = k then true else memKeyS k l

/-- In-place replacement of the value stored at the given key. -/
def setKeyS (k : String) (v : Recipe) : List (String × Recipe) → List (String × Recipe)
  | [] => []
  | p :: l => if p.1 = k then (p.1, v) :: setKeyS k v l else p :: setKeyS k v l

/-- `Map.set` on a `Map<string, Recipe>`: update in place when the key is
present (keeping its position), append otherwise. -/
def jsMapSet (l : List (String × Recipe)) (k : String) (v : Recipe) : List (String × Recipe) :=
  if memKeyS k l then setKeyS k v l else l ++ [(k, v)]

/-- Loop body of `createRecipeMap`: a literal recipe is stored under the key
`"custom"`; an identifier is stored under its enumeration name with the
catalog template as value.  The enumeration-name function and the catalog
are external collaborators and are passed in. -/
def createRecipeMapStep (typeName : ℕ → String) (catalog : ℕ → Recipe)
    (m : List (String × Recipe)) (r : ℕ ⊕ Recipe) : List (String × Recipe) :=
  match r with
  | Sum.inr q => jsMapSet m "custom" q
  | Sum.inl t => jsMapSet m (typeName t) (catalog t)

/-- `Recipe.createRecipeMap`. -/
def Recipe.createRecipeMap (typeName : ℕ → String) (catalog : ℕ → Recipe)
    (recipes : List (ℕ ⊕ Recipe)) : List (String × Recipe) :=
  recipes.foldl (createRecipeMapStep typeName catalog) []

/-- One candidate-producer attempt inside `applyProducerRecipesImpl`:
find the producer outputs matching `self`'s inputs, take the first match,
compute the multipliers, and (when the producer multiplier is non-zero)
merge the scaled recipes.  `none` means the candidate was skipped without
change. -/
def Recipe.producerSubstitutionStep (self recipe : Recipe)
    (multiplierFunc : ℚ → ℚ → ℚ × ℚ) : Option Recipe :=
  match (recipe.getOutputTypes).filter (fun t => self.inputs.hasResource t) with
  | [] => none
  | outputType :: _ =>
    let currentInput := self.inputs.resourceCount outputType
    let recipeOutput := recipe.outputs.resourceCount outputType
    let m := multiplierFunc currentInput recipeOutput
    if m.2 = 0 then none
    else some (Recipe.mergeRecipes (self.multiply m.1) ((recipe.clone).multiply m.2))

/-- Handling of one candidate inside a pass: apply the substitution step;
on a change, replace the recipe and set the `update` flag. -/
def applyProducerCandidateStep (multiplierFunc : ℚ → ℚ → ℚ × ℚ)
    (acc : Recipe × Bool) (entry : String × Recipe) : Recipe × Bool :=
  match Recipe.producerSubstitutionStep acc.1 entry.2 multiplierFunc with
  | none => acc
  | some merged => (merged, true)

/-- One full pass of `applyProducerRecipesImpl` over the candidate map,
threading the recipe and the `update` flag. -/
def Recipe.applyProducerPass (multiplierFunc : ℚ → ℚ → ℚ × ℚ)
    (recipeMap : List (String × Recipe)) (selfUpdate : Recipe × Bool) : Recipe × Bool :=
  recipeMap.foldl (applyProducerCandidateStep multiplierFunc) selfUpdate

/-- The `while (update)` loop of `applyProducerRecipesImpl`, with fuel.
`none` means the loop was still producing changes when the fuel ran out. -/
def Recipe.applyProducerLoop (multiplierFunc : ℚ → ℚ → ℚ × ℚ)
    (recipeMap : List (String × Recipe)) : Recipe → ℕ → Option Recipe
  | _, 0 => none
  | self, fuel + 1 =>
    match Recipe.applyProducerPass multiplierFunc recipeMap (self, false) with
    | (self2, true) => Recipe.applyProducerLoop multiplierFunc recipeMap self2 fuel
    | (self2, false) => some self2

/-- `Recipe.applyProducerRecipesImpl`: build the candidate map, then run
passes to the fixed point. -/
def Recipe.applyProducerRecipesImpl (self : Recipe) (recipes : List (ℕ ⊕ Recipe))
    (multiplierFunc : ℚ → ℚ → ℚ × ℚ) (typeName : ℕ → String) (catalog : ℕ → Recipe)
    (fuel : ℕ) : Option Recipe :=
  Recipe.applyProducerLoop multiplierFunc
    (Recipe.createRecipeMap typeName catalog recipes) self fuel

/-- The multiplier policy of `applyProducerRecipesNoScaling`:
`(a, b) => [1, Math.floor(a / b)]` (the claims exercise it only with
non-zero `b`, where rational floor division agrees with the source). -/
def noScalingPolicy (a b : ℚ) : ℚ × ℚ :=
  (1, ((⌊a / b⌋ : ℤ) : ℚ))

/-- The trial-multiple loop of `almostLeastCommonMultiple`, with fuel.
Rational division by zero is `0` in this model; on the zero-operand inputs
settled below this makes both accept tests false, exactly as the `NaN`
comparisons do in JavaScript, so the loop never returns — rendered as
`none` for every fuel. -/
def almostLeastCommonMultipleGo (a bigger lower error : ℚ) : ℚ → ℕ → Option (ℚ × ℚ)
  | _, 0 => none
  | biggerMultiple, fuel + 1 =>
    if |lower * ((⌊biggerMultiple / lower⌋ : ℤ) : ℚ) - biggerMultiple| / biggerMultiple
        ≤ error then
      if a = bigger then
        some (biggerMultiple / bigger, ((⌊biggerMultiple / lower⌋ : ℤ) : ℚ))
      else
        some (((⌊biggerMultiple / lower⌋ : ℤ) : ℚ), biggerMultiple / bigger)
    else if |lower * ((⌈biggerMultiple / lower⌉ : ℤ) : ℚ) - biggerMultiple| / biggerMultiple
        ≤ error then
      if a = bigger then
        some (biggerMultiple / bigger, ((⌈biggerMultiple / lower⌉ : ℤ) : ℚ))
      else
        some (((⌈biggerMultiple / lower⌉ : ℤ) : ℚ), biggerMultiple / bigger)
    else
      almostLeastCommonMultipleGo a bigger lower error (biggerMultiple + bigger) fuel

/-- `almostLeastCommonMultiple` from the utilities module: try successive
multiples of the bigger operand until the smaller operand divides one of
them exactly enough (relative error at most `error`). -/
def almostLeastCommonMultiple (a b error : ℚ) (fuel : ℕ) : Option (ℚ × ℚ) :=
  almostLeastCommonMultipleGo a (max a b) (min a b) error (max a b) fuel

/-! Basic lemmas about the association-list model of `Map`. -/

theorem lookupQ_eq_zero_of_memKey_false {r : ResourceTypes} {l : List (ResourceTypes × ℚ)}
    (h : memKey r l = false) : lookupQ r l = 0 := by
  induction l with
  | nil => rfl
  | cons p l ih =>
    simp only [memKey, lookupQ] at *
    by_cases hp : p.1 = r
    · simp [hp] at h
    · simpa [hp] using ih (by simpa [hp] using h)

theorem memKey_eq_true_of_lookupQ_ne {r : ResourceTypes} {l : List (ResourceTypes × ℚ)}
    (h : lookupQ r l ≠ 0) : memKey r l = true := by
  cases hm : memKey r l with
  | false => exact absurd (lookupQ_eq_zero_of_memKey_false hm) h
  | true => rfl

theorem memKey_iff_mem {r : ResourceTypes} {l : List (ResourceTypes × ℚ)} :
    memKey r l = true ↔ r ∈ l.map Prod.fst := by
  induction l with
  | nil => simp [memKey]
  | cons p l ih =>
    by_cases hp : p.1 = r
    · simp [memKey, hp]
    · simp [memKey, hp, ih, Ne.symm hp]

theorem lookupQ_mem {r : ResourceTypes} {l : List (ResourceTypes × ℚ)}
    (h : memKey r l = true) : (r, lookupQ r l) ∈ l := by
  induction l with
  | nil => simp [memKey] at h
  | cons p l ih =>
    by_cases hp : p.1 = r
    · have he : (r, lookupQ r (p :: l)) = p := by
        simp only [lookupQ, if_pos hp]
        rw [← hp]
      rw [he]
      exact List.mem_cons_self _ _
    · simp only [memKey, if_neg hp] at h
      simp only [lookupQ, if_neg hp]
      exact List.mem_cons_of_mem _ (ih h)

theorem lookupQ_of_mem_nodup {l : List (ResourceTypes × ℚ)}
    (hnd : (l.map Prod.fst).Nodup) {p : ResourceTypes × ℚ} (hp : p ∈ l) :
    lookupQ p.1 l = p.2 := by
  induction l with
  | nil => simp at hp
  | cons q l ih =>
    simp only [List.map_cons, List.nodup_cons] at hnd
    rcases List.mem_cons.mp hp with h | h
    · simp [lookupQ, h]
    · have hne : q.1 ≠ p.1 := by
        intro he
        exact hnd.1 (he ▸ List.mem_map_of_mem Prod.fst h)
      simp only [lookupQ, if_neg hne]
      exact ih hnd.2 h

theorem eraseKey_sublist (r : ResourceTypes) (l : List (ResourceTypes × ℚ)) :
    (eraseKey r l).Sublist l := by
  induction l with
  | nil => simp [eraseKey]
  | cons p l ih =>
    by_cases hp : p.1 = r
    · simpa [eraseKey, hp] using ih.cons p
    · simpa [eraseKey, hp] using ih.cons₂ p

theorem lookupQ_eraseKey (s r : ResourceTypes) (l : List (ResourceTypes × ℚ)) :
    lookupQ s (eraseKey r l) = if s = r then 0 else lookupQ s l := by
  induction l with
  | nil => simp [eraseKey, lookupQ]
  | cons p l ih =>
    by_cases hp : p.1 = r
    · rw [eraseKey, if_pos hp, ih]
      by_cases hs : s = r
      · simp [hs]
      · have h1 : p.1 ≠ s := fun he => hs (he.symm.trans hp)
        rw [if_neg hs, if_neg hs, lookupQ, if_neg h1]
    · rw [eraseKey, if_neg hp]
      by_cases hps : p.1 = s
      · have hs : ¬ s = r := fun he => hp (hps.trans he)
        rw [lookupQ, if_pos hps, if_neg hs, lookupQ, if_pos hps]
      · rw [lookupQ, if_neg hps, ih]
        by_cases hs : s = r
        · simp [hs]
        · rw [if_neg hs, if_neg hs, lookupQ, if_neg hps]

theorem memKey_eraseKey (s r : ResourceTypes) (l : List (ResourceTypes × ℚ)) :
    memKey s (eraseKey r l) = if s = r then false else memKey s l := by
  induction l with
  | nil => simp [eraseKey, memKey]
  | cons p l ih =>
    by_cases hp : p.1 = r
    · rw [eraseKey, if_pos hp, ih]
      by_cases hs : s = r
      · simp [hs]
      · have h1 : p.1 ≠ s := fun he => hs (he.symm.trans hp)
        rw [if_neg hs, if_neg hs, memKey, if_neg h1]
    · rw [eraseKey, if_neg hp]
      by_cases hps : p.1 = s
      · have hs : ¬ s = r := fun he => hp (hps.trans he)
        rw [memKey, if_pos hps, if_neg hs, memKey, if_pos hps]
      · rw [memKey, if_neg hps, ih]
        by_cases hs : s = r
        · simp [hs]
        · rw [if_neg hs, if_neg hs, memKey, if_neg hps]

theorem lookupQ_bumpKey_ne {s r : ResourceTypes} (hne : s ≠ r) (c : ℚ)
    (l : List (ResourceTypes × ℚ)) : lookupQ s (bumpKey r c l) = lookupQ s l := by
  induction l with
  | nil => rfl
  | cons p l ih =>
    by_cases hp : p.1 = r
    · have h1 : p.1 ≠ s := fun he => hne (he.symm.trans hp)
      rw [bumpKey, if_pos hp]
      simp only [lookupQ, if_neg h1]
      exact ih
    · by_cases hps : p.1 = s
      · rw [bumpKey, if_neg hp, lookupQ, if_pos hps, lookupQ, if_pos hps]
      · rw [bumpKey, if_neg hp, lookupQ, if_neg hps, ih, lookupQ, if_neg hps]

theorem lookupQ_bumpKey_self {r : ResourceTypes} {l : List (ResourceTypes × ℚ)}
    (h : memKey r l = true) (c : ℚ) : lookupQ r (bumpKey r c l) = lookupQ r l + c := by
  induction l with
  | nil => simp [memKey] at h
  | cons p l ih =>
    by_cases hp : p.1 = r
    · simp [bumpKey, hp, lookupQ]
    · simp only [memKey, if_neg hp] at h
      simp [bumpKey, hp, lookupQ, ih h]

theorem memKey_bumpKey (s r : ResourceTypes) (c : ℚ) (l : List (ResourceTypes × ℚ)) :
    memKey s (bumpKey r c l) = memKey s l := by
  induction l with
  | nil => rfl
  | cons p l ih =>
    by_cases hp : p.1 = r <;> by_cases hps : p.1 = s <;>
      simp_all [bumpKey, memKey]

theorem keys_bumpKey (r : ResourceTypes) (c : ℚ) (l : List (ResourceTypes × ℚ)) :
    (bumpKey r c l).map Prod.fst = l.map Prod.fst := by
  induction l with
  | nil => rfl
  | cons p l ih =>
    by_cases hp : p.1 = r <;> simp [bumpKey, hp, ih]

theorem mem_bumpKey {r : ResourceTypes} {c : ℚ} {l : List (ResourceTypes × ℚ)}
    {p : ResourceTypes × ℚ} (hp : p ∈ bumpKey r c l) :
    (p.1 ≠ r ∧ p ∈ l) ∨ ∃ q ∈ l, q.1 = r ∧ p = (q.1, q.2 + c) := by
  induction l with
  | nil => simp [bumpKey] at hp
  | cons q l ih =>
    by_cases hq : q.1 = r
    · rw [bumpKey, if_pos hq] at hp
      rcases List.mem_cons.mp hp with h | h
      · exact Or.inr ⟨q, List.mem_cons_self q l, hq, h⟩
      · rcases ih h with h1 | ⟨q2, hq2, hq2r, he⟩
        · exact Or.inl ⟨h1.1, List.mem_cons_of_mem _ h1.2⟩
        · exact Or.inr ⟨q2, List.mem_cons_of_mem _ hq2, hq2r, he⟩
    · rw [bumpKey, if_neg hq] at hp
      rcases List.mem_cons.mp hp with h | h
      · subst h
        exact Or.inl ⟨hq, List.mem_cons_self _ _⟩
      · rcases ih h with h1 | ⟨q2, hq2, hq2r, he⟩
        · exact Or.inl ⟨h1.1, List.mem_cons_of_mem _ h1.2⟩
        · exact Or.inr ⟨q2, List.mem_cons_of_mem _ hq2, hq2r, he⟩

theorem lookupQ_append_ne {s r : ResourceTypes} (hne : s ≠ r) (c : ℚ)
    (l : List (ResourceTypes × ℚ)) : lookupQ s (l ++ [(r, c)]) = lookupQ s l := by
  induction l with
  | nil => simp [lookupQ, Ne.symm hne]
  | cons p l ih =>
    by_cases hp : p.1 = s <;> simp [lookupQ, hp, ih]

theorem lookupQ_append_self {r : ResourceTypes} {l : List (ResourceTypes × ℚ)}
    (h : memKey r l = false) (c : ℚ) : lookupQ r (l ++ [(r, c)]) = c := by
  induction l with
  | nil => simp [lookupQ]
  | cons p l ih =>
    by_cases hp : p.1 = r
    · simp [memKey, hp] at h
    · simp only [memKey, if_neg hp] at h
      simp [lookupQ, hp, ih h]

theorem memKey_append (s r : ResourceTypes) (c : ℚ) (l : List (ResourceTypes × ℚ)) :
    memKey s (l ++ [(r, c)]) = (memKey s l || decide (s = r)) := by
  induction l with
  | nil => by_cases hs : s = r <;> simp [memKey, hs, Ne.symm]
  | cons p l ih =>
    by_cases hp : p.1 = s <;> simp [memKey, hp, ih]

theorem lookupQ_scaleVals (s : ResourceTypes) (k : ℚ) (l : List (ResourceTypes × ℚ)) :
    lookupQ s (scaleVals k l) = lookupQ s l * k := by
  induction l with
  | nil => simp [scaleVals, lookupQ]
  | cons p l ih =>
    by_cases hp : p.1 = s <;> simp [scaleVals, lookupQ, hp, ih]

theorem memKey_scaleVals (s : ResourceTypes) (k : ℚ) (l : List (ResourceTypes × ℚ)) :
    memKey s (scaleVals k l) = memKey s l := by
  induction l with
  | nil => rfl
  | cons p l ih =>
    by_cases hp : p.1 = s <;> simp [scaleVals, memKey, hp, ih]

theorem keys_scaleVals (k : ℚ) (l : List (ResourceTypes × ℚ)) :
    (scaleVals k l).map Prod.fst = l.map Prod.fst := by
  induction l with
  | nil => rfl
  | cons p l ih => simp [scaleVals, ih]

theorem mem_scaleVals {k : ℚ} {l : List (ResourceTypes × ℚ)} {p : ResourceTypes × ℚ} :
    p ∈ scaleVals k l ↔ ∃ q ∈ l, p = (q.1, q.2 * k) := by
  induction l with
  | nil => simp [scaleVals]
  | cons q l ih =>
    constructor
    · intro hp
      rcases List.mem_cons.mp hp with h | h
      · exact ⟨q, List.mem_cons_self _ _, h⟩
      · rcases ih.mp h with ⟨q2, hq2, he⟩
        exact ⟨q2, List.mem_cons_of_mem _ hq2, he⟩
    · rintro ⟨q2, hq2, rfl⟩
      rcases List.mem_cons.mp hq2 with h | h
      · exact h ▸ List.mem_cons_self _ _
      · exact List.mem_cons_of_mem _ (ih.mpr ⟨q2, h, rfl⟩)

/-! Lemmas about the ledger operations. -/

theorem ResourceMap.addResource_zero (m : ResourceMap) (r : ResourceTypes) :
    m.addResource r 0 = m := by
  simp [ResourceMap.addResource]

theorem ResourceMap.resourceCount_eq_zero_of_not_has {m : ResourceMap} {s : ResourceTypes}
    (h : m.hasResource s = false) : m.resourceCount s = 0 :=
  lookupQ_eq_zero_of_memKey_false h

theorem ResourceMap.hasResource_eq_false {m : ResourceMap} {r : ResourceTypes}
    (h : ¬ m.hasResource r = true) : m.hasResource r = false := by
  cases h2 : m.hasResource r with
  | false => rfl
  | true => exact absurd h2 h

theorem ResourceMap.resourceCount_addResource (m : ResourceMap) (r : ResourceTypes) (c : ℚ)
    (s : ResourceTypes) :
    (m.addResource r c).resourceCount s = m.resourceCount s + if s = r then c else 0 := by
  by_cases hc : c = 0
  · simp [hc, ResourceMap.addResource]
  · rw [ResourceMap.addResource, if_neg hc]
    by_cases hB : m.hasResource r = true
    · rw [if_pos hB]
      by_cases hs : s = r
      · subst hs
        show lookupQ s (bumpKey s c m.map) = lookupQ s m.map + if s = s then c else 0
        rw [lookupQ_bumpKey_self hB, if_pos rfl]
      · show lookupQ s (bumpKey r c m.map) = lookupQ s m.map + if s = r then c else 0
        rw [lookupQ_bumpKey_ne hs, if_neg hs, add_zero]
    · rw [if_neg hB]
      have hm : m.hasResource r = false := ResourceMap.hasResource_eq_false hB
      by_cases hs : s = r
      · subst hs
        show lookupQ s (m.map ++ [(s, c)]) = lookupQ s m.map + if s = s then c else 0
        rw [lookupQ_append_self hm, lookupQ_eq_zero_of_memKey_false hm, if_pos rfl, zero_add]
      · show lookupQ s (m.map ++ [(r, c)]) = lookupQ s m.map + if s = r then c else 0
        rw [lookupQ_append_ne hs, if_neg hs, add_zero]

theorem ResourceMap.hasResource_addResource_ne {m : ResourceMap} {s r : ResourceTypes}
    (hne : s ≠ r) (c : ℚ) : (m.addResource r c).hasResource s = m.hasResource s := by
  by_cases hc : c = 0
  · simp [hc, ResourceMap.addResource]
  · rw [ResourceMap.addResource, if_neg hc]
    by_cases hB : m.hasResource r = true
    · rw [if_pos hB]
      show memKey s (bumpKey r c m.map) = memKey s m.map
      rw [memKey_bumpKey]
    · rw [if_neg hB]
      show memKey s (m.map ++ [(r, c)]) = memKey s m.map
      rw [memKey_append, decide_eq_false hne, Bool.or_false]

theorem ResourceMap.hasResource_addResource_self (m : ResourceMap) (r : ResourceTypes)
    {c : ℚ} (hc : c ≠ 0) : (m.addResource r c).hasResource r = true := by
  rw [ResourceMap.addResource, if_neg hc]
  by_cases hB : m.hasResource r = true
  · rw [if_pos hB]
    show memKey r (bumpKey r c m.map) = true
    rw [memKey_bumpKey]
    exact hB
  · rw [if_neg hB]
    show memKey r (m.map ++ [(r, c)]) = true
    rw [memKey_append, decide_eq_true rfl, Bool.or_true]

theorem ResourceMap.resourceCount_removeResource (m : ResourceMap) (r s : ResourceTypes) :
    (m.removeResource r).resourceCount s = if s = r then 0 else m.resourceCount s :=
  lookupQ_eraseKey s r m.map

theorem ResourceMap.hasResource_removeResource (m : ResourceMap) (r s : ResourceTypes) :
    (m.removeResource r).hasResource s = if s = r then false else m.hasResource s :=
  memKey_eraseKey s r m.map

theorem ResourceMap.resourceCount_multiply (m : ResourceMap) (k : ℚ) (s : ResourceTypes) :
    (m.multiply k).resourceCount s = m.resourceCount s * k :=
  lookupQ_scaleVals s k m.map

theorem ResourceMap.hasResource_multiply (m : ResourceMap) (k : ℚ) (s : ResourceTypes) :
    (m.multiply k).hasResource s = m.hasResource s :=
  memKey_scaleVals s k m.map

theorem ResourceMap.resourceCount_addAll {l : List (ResourceTypes × ℚ)}
    (hnd : (l.map Prod.fst).Nodup) (m : ResourceMap) (s : ResourceTypes) :
    (m.addAll l).resourceCount s = m.resourceCount s + lookupQ s l := by
  induction l generalizing m with
  | nil => simp [ResourceMap.addAll, lookupQ]
  | cons p l ih =>
    simp only [List.map_cons, List.nodup_cons] at hnd
    rw [ResourceMap.addAll, List.foldl_cons]
    have step : ((m.addResource p.1 p.2).addAll l).resourceCount s
        = (m.addResource p.1 p.2).resourceCount s + lookupQ s l := ih hnd.2 _
    rw [show (List.foldl (fun acc q => acc.addResource q.1 q.2) (m.addResource p.1 p.2) l)
        = (m.addResource p.1 p.2).addAll l from rfl, step,
      ResourceMap.resourceCount_addResource]
    by_cases hs : s = p.1
    · have hz : memKey s l = false := by
        cases hm : memKey s l with
        | true => exact absurd (hs ▸ memKey_iff_mem.mp hm) hnd.1
        | false => rfl
      rw [lookupQ_eq_zero_of_memKey_false hz, if_pos hs, lookupQ, if_pos hs.symm, add_zero]
    · have h1 : p.1 ≠ s := fun he => hs he.symm
      rw [if_neg hs, add_zero, lookupQ, if_neg h1]

theorem ResourceMap.hasResource_iff_pos {m : ResourceMap} (h : m.WF) {s : ResourceTypes} :
    m.hasResource s = true ↔ 0 < m.resourceCount s := by
  constructor
  · intro hs
    exact h.2 _ (lookupQ_mem hs)
  · intro hs
    exact memKey_eq_true_of_lookupQ_ne (ne_of_gt hs)

theorem ResourceMap.not_hasResource_iff_zero {m : ResourceMap} (h : m.WF) {s : ResourceTypes} :
    m.hasResource s = false ↔ m.resourceCount s = 0 := by
  constructor
  · exact ResourceMap.resourceCount_eq_zero_of_not_has
  · intro hs
    cases hm : m.hasResource s with
    | false => rfl
    | true => exact absurd hs (ne_of_gt ((ResourceMap.hasResource_iff_pos h).mp hm))

theorem ResourceMap.WF_removeResource {m : ResourceMap} (h : m.WF) (r : ResourceTypes) :
    (m.removeResource r).WF := by
  refine ⟨?_, ?_⟩
  · exact h.1.sublist ((eraseKey_sublist r m.map).map Prod.fst)
  · intro p hp
    exact h.2 p ((eraseKey_sublist r m.map).mem hp)

theorem ResourceMap.WF_multiply {m : ResourceMap} (h : m.WF) {k : ℚ} (hk : 0 < k) :
    (m.multiply k).WF := by
  refine ⟨?_, ?_⟩
  · rw [ResourceMap.multiply]
    show ((scaleVals k m.map).map Prod.fst).Nodup
    rw [keys_scaleVals]
    exact h.1
  · intro p hp
    rcases mem_scaleVals.mp hp with ⟨q, hq, rfl⟩
    exact mul_pos (h.2 q hq) hk

theorem ResourceMap.WF_addResource_nonneg {m : ResourceMap} (h : m.WF) (r : ResourceTypes)
    {c : ℚ} (hc : 0 ≤ c) : (m.addResource r c).WF := by
  by_cases hc0 : c = 0
  · rw [hc0, ResourceMap.addResource_zero]
    exact h
  · rw [ResourceMap.addResource, if_neg hc0]
    by_cases hB : m.hasResource r = true
    · rw [if_pos hB]
      refine ⟨?_, ?_⟩
      · show ((bumpKey r c m.map).map Prod.fst).Nodup
        rw [keys_bumpKey]
        exact h.1
      · intro p hp
        rcases mem_bumpKey hp with ⟨_, hpl⟩ | ⟨q, hq, _, rfl⟩
        · exact h.2 p hpl
        · exact add_pos (h.2 q hq) (lt_of_le_of_ne hc (Ne.symm hc0))
    · rw [if_neg hB]
      have hm : m.hasResource r = false := ResourceMap.hasResource_eq_false hB
      refine ⟨?_, ?_⟩
      · show ((m.map ++ [(r, c)]).map Prod.fst).Nodup
        rw [List.map_append]
        refine List.Nodup.append h.1 (by simp) ?_
        intro x hx hx2
        simp only [List.map_cons, List.map_nil, List.mem_singleton] at hx2
        subst hx2
        have : memKey x m.map = true := memKey_iff_mem.mpr hx
        rw [show memKey x m.map = m.hasResource x from rfl, hm] at this
        exact Bool.false_ne_true this
      · intro p hp
        rcases List.mem_append.mp hp with hpl | hpr
        · exact h.2 p hpl
        · simp only [List.mem_singleton] at hpr
          subst hpr
          exact lt_of_le_of_ne hc (Ne.symm hc0)

theorem ResourceMap.WF_addResource_present {m : ResourceMap} (h : m.WF) {r : ResourceTypes}
    (hr : m.hasResource r = true) {c : ℚ} (hpos : 0 < m.resourceCount r + c) :
    (m.addResource r c).WF := by
  by_cases hc0 : c = 0
  · rw [hc0, ResourceMap.addResource_zero]
    exact h
  · rw [ResourceMap.addResource, if_neg hc0, if_pos hr]
    refine ⟨?_, ?_⟩
    · show ((bumpKey r c m.map).map Prod.fst).Nodup
      rw [keys_bumpKey]
      exact h.1
    · intro p hp
      rcases mem_bumpKey hp with ⟨_, hpl⟩ | ⟨q, hq, hqr, rfl⟩
      · exact h.2 p hpl
      · have : lookupQ q.1 m.map = q.2 := lookupQ_of_mem_nodup h.1 hq
        rw [hqr] at this
        show 0 < q.2 + c
        rw [← this]
        exact hpos

theorem ResourceMap.WF_addAll {m : ResourceMap} (h : m.WF) {l : List (ResourceTypes × ℚ)}
    (hl : ∀ p ∈ l, 0 ≤ p.2) : (m.addAll l).WF := by
  induction l generalizing m with
  | nil => exact h
  | cons p l ih =>
    rw [ResourceMap.addAll, List.foldl_cons]
    exact ih (ResourceMap.WF_addResource_nonneg h p.1 (hl p (List.mem_cons_self _ _)))
      (fun q hq => hl q (List.mem_cons_of_mem _ hq))

/-! Specification of the cancellation phase of `mergeRecipes`. -/

theorem mergeCancelStep_spec (cin pout : ResourceMap) (r : ResourceTypes) (ic : ℚ)
    (hic : 0 < ic) (hcin : cin.resourceCount r = ic) (hcwf : cin.WF) (hpwf : pout.WF) :
    (Recipe.mergeCancelStep (cin, pout) (r, ic)).1.WF
    ∧ (Recipe.mergeCancelStep (cin, pout) (r, ic)).2.WF
    ∧ (∀ s, s ≠ r →
        (Recipe.mergeCancelStep (cin, pout) (r, ic)).1.resourceCount s = cin.resourceCount s
        ∧ (Recipe.mergeCancelStep (cin, pout) (r, ic)).2.resourceCount s = pout.resourceCount s
        ∧ (Recipe.mergeCancelStep (cin, pout) (r, ic)).1.hasResource s = cin.hasResource s
        ∧ (Recipe.mergeCancelStep (cin, pout) (r, ic)).2.hasResource s = pout.hasResource s)
    ∧ (Recipe.mergeCancelStep (cin, pout) (r, ic)).1.resourceCount r
        = ic - min ic (pout.resourceCount r)
    ∧ (Recipe.mergeCancelStep (cin, pout) (r, ic)).2.resourceCount r
        = pout.resourceCount r - min ic (pout.resourceCount r) := by
  by_cases hhas : pout.hasResource r = true
  · have hoc : 0 < pout.resourceCount r := (ResourceMap.hasResource_iff_pos hpwf).mp hhas
    rcases lt_trichotomy ic (pout.resourceCount r) with hlt | heq | hgt
    · have hstep : Recipe.mergeCancelStep (cin, pout) (r, ic)
          = (cin.removeResource r, pout.addResource r (-ic)) := by
        rw [Recipe.mergeCancelStep, if_pos hhas, if_pos hlt]
      rw [hstep]
      refine ⟨ResourceMap.WF_removeResource hcwf r,
        ResourceMap.WF_addResource_present hpwf hhas (by linarith), ?_, ?_, ?_⟩
      · intro s hs
        refine ⟨?_, ?_, ?_, ?_⟩
        · rw [ResourceMap.resourceCount_removeResource, if_neg hs]
        · rw [ResourceMap.resourceCount_addResource, if_neg hs, add_zero]
        · rw [ResourceMap.hasResource_removeResource, if_neg hs]
        · rw [ResourceMap.hasResource_addResource_ne hs]
      · rw [ResourceMap.resourceCount_removeResource, if_pos rfl,
          min_eq_left (le_of_lt hlt), sub_self]
      · rw [ResourceMap.resourceCount_addResource, if_pos rfl,
          min_eq_left (le_of_lt hlt)]
        ring
    · have hstep : Recipe.mergeCancelStep (cin, pout) (r, ic)
          = (cin.removeResource r, pout.removeResource r) := by
        rw [Recipe.mergeCancelStep, if_pos hhas, if_neg (by rw [← heq]; exact lt_irrefl ic),
          if_pos heq.symm]
      rw [hstep]
      refine ⟨ResourceMap.WF_removeResource hcwf r, ResourceMap.WF_removeResource hpwf r,
        ?_, ?_, ?_⟩
      · intro s hs
        refine ⟨?_, ?_, ?_, ?_⟩
        · rw [ResourceMap.resourceCount_removeResource, if_neg hs]
        · rw [ResourceMap.resourceCount_removeResource, if_neg hs]
        · rw [ResourceMap.hasResource_removeResource, if_neg hs]
        · rw [ResourceMap.hasResource_removeResource, if_neg hs]
      · rw [ResourceMap.resourceCount_removeResource, if_pos rfl, ← heq, min_self, sub_self]
      · rw [ResourceMap.resourceCount_removeResource, if_pos rfl, ← heq, min_self, sub_self]
    · have hstep : Recipe.mergeCancelStep (cin, pout) (r, ic)
          = (cin.addResource r (-(pout.resourceCount r)), pout.removeResource r) := by
        rw [Recipe.mergeCancelStep, if_pos hhas, if_neg (not_lt_of_gt hgt),
          if_neg (ne_of_lt hgt)]
      rw [hstep]
      have hcr : cin.hasResource r = true :=
        (ResourceMap.hasResource_iff_pos hcwf).mpr (hcin ▸ hic)
      refine ⟨ResourceMap.WF_addResource_present hcwf hcr (by rw [hcin]; linarith),
        ResourceMap.WF_removeResource hpwf r, ?_, ?_, ?_⟩
      · intro s hs
        refine ⟨?_, ?_, ?_, ?_⟩
        · rw [ResourceMap.resourceCount_addResource, if_neg hs, add_zero]
        · rw [ResourceMap.resourceCount_removeResource, if_neg hs]
        · rw [ResourceMap.hasResource_addResource_ne hs]
        · rw [ResourceMap.hasResource_removeResource, if_neg hs]
      · rw [ResourceMap.resourceCount_addResource, if_pos rfl, hcin,
          min_eq_right (le_of_lt hgt)]
        ring
      · rw [ResourceMap.resourceCount_removeResource, if_pos rfl,
          min_eq_right (le_of_lt hgt), sub_self]
  · have hstep : Recipe.mergeCancelStep (cin, pout) (r, ic) = (cin, pout) := by
      rw [Recipe.mergeCancelStep, if_neg hhas]
    have hz : pout.resourceCount r = 0 :=
      ResourceMap.resourceCount_eq_zero_of_not_has (ResourceMap.hasResource_eq_false hhas)
    rw [hstep, hz, min_eq_right (le_of_lt hic), sub_self, sub_zero]
    exact ⟨hcwf, hpwf, fun s _ => ⟨rfl, rfl, rfl, rfl⟩, hcin, rfl⟩

theorem mergeCancel_go_spec (l : List (ResourceTypes × ℚ)) :
    ∀ (cin pout : ResourceMap), (l.map Prod.fst).Nodup → (∀ p ∈ l, 0 < p.2) →
    cin.WF → pout.WF → (∀ p ∈ l, cin.resourceCount p.1 = p.2) →
    ((l.foldl Recipe.mergeCancelStep (cin, pout)).1.WF
      ∧ (l.foldl Recipe.mergeCancelStep (cin, pout)).2.WF)
    ∧ (∀ s, memKey s l = false →
        (l.foldl Recipe.mergeCancelStep (cin, pout)).1.resourceCount s = cin.resourceCount s
        ∧ (l.foldl Recipe.mergeCancelStep (cin, pout)).2.resourceCount s = pout.resourceCount s
        ∧ (l.foldl Recipe.mergeCancelStep (cin, pout)).1.hasResource s = cin.hasResource s
        ∧ (l.foldl Recipe.mergeCancelStep (cin, pout)).2.hasResource s = pout.hasResource s)
    ∧ (∀ p ∈ l,
        (l.foldl Recipe.mergeCancelStep (cin, pout)).1.resourceCount p.1
          = p.2 - min p.2 (pout.resourceCount p.1)
        ∧ (l.foldl Recipe.mergeCancelStep (cin, pout)).2.resourceCount p.1
          = pout.resourceCount p.1 - min p.2 (pout.resourceCount p.1)) := by
  induction l with
  | nil =>
    intro cin pout _ _ hcwf hpwf _
    exact ⟨⟨hcwf, hpwf⟩, fun s _ => ⟨rfl, rfl, rfl, rfl⟩, fun p hp => absurd hp (by simp)⟩
  | cons p l ih =>
    intro cin pout hnd hpos hcwf hpwf hinv
    simp only [List.map_cons, List.nodup_cons] at hnd
    have hpic : 0 < p.2 := hpos p (List.mem_cons_self _ _)
    have hpcin : cin.resourceCount p.1 = p.2 := hinv p (List.mem_cons_self _ _)
    have hstep := mergeCancelStep_spec cin pout p.1 p.2 hpic hpcin hcwf hpwf
    have hpr : Recipe.mergeCancelStep (cin, pout) p = Recipe.mergeCancelStep (cin, pout) (p.1, p.2) := by
      rfl
    have hkey : ∀ q ∈ l, q.1 ≠ p.1 := by
      intro q hq he
      exact hnd.1 (he ▸ List.mem_map_of_mem Prod.fst hq)
    have hA := ih (Recipe.mergeCancelStep (cin, pout) (p.1, p.2)).1
      (Recipe.mergeCancelStep (cin, pout) (p.1, p.2)).2 hnd.2
      (fun q hq => hpos q (List.mem_cons_of_mem _ hq)) hstep.1 hstep.2.1
      (fun q hq => by
        rw [(hstep.2.2.1 q.1 (hkey q hq)).1]
        exact hinv q (List.mem_cons_of_mem _ hq))
    rw [List.foldl_cons, hpr]
    refine ⟨hA.1, ?_, ?_⟩
    · intro s hs
      rw [memKey] at hs
      by_cases hp1 : p.1 = s
      · rw [if_pos hp1] at hs
        exact Bool.noConfusion hs
      · rw [if_neg hp1] at hs
        have hu := hA.2.1 s hs
        have hp2 := hstep.2.2.1 s (fun he => hp1 he.symm)
        exact ⟨hu.1.trans hp2.1, hu.2.1.trans hp2.2.1, hu.2.2.1.trans hp2.2.2.1,
          hu.2.2.2.trans hp2.2.2.2⟩
    · intro q hq
      rcases List.mem_cons.mp hq with rfl | hql
      · have hm : memKey q.1 l = false := by
          cases hm2 : memKey q.1 l with
          | false => rfl
          | true => exact absurd (memKey_iff_mem.mp hm2) hnd.1
        have hu := hA.2.1 q.1 hm
        exact ⟨hu.1.trans hstep.2.2.2.1, hu.2.1.trans hstep.2.2.2.2⟩
      · have hne : q.1 ≠ p.1 := hkey q hql
        have hh := hA.2.2 q hql
        rw [(hstep.2.2.1 q.1 hne).2.1] at hh
        exact hh

theorem ResourceMap.resourceCount_nonneg {m : ResourceMap} (h : m.WF) (s : ResourceTypes) :
    0 ≤ m.resourceCount s := by
  cases hm : m.hasResource s with
  | true => exact le_of_lt ((ResourceMap.hasResource_iff_pos h).mp hm)
  | false => rw [ResourceMap.resourceCount_eq_zero_of_not_has hm]

theorem mergeCancel_WF {c p : Recipe} (hci : c.inputs.WF) (hpo : p.outputs.WF) :
    (Recipe.mergeCancel c p).1.WF ∧ (Recipe.mergeCancel c p).2.WF :=
  (mergeCancel_go_spec c.inputs.map c.inputs p.outputs hci.1 hci.2 hci hpo
    (fun _ hq => lookupQ_of_mem_nodup hci.1 hq)).1

theorem mergeCancel_counts {c p : Recipe} (hci : c.inputs.WF) (hpo : p.outputs.WF)
    (s : ResourceTypes) :
    (Recipe.mergeCancel c p).1.resourceCount s
      = c.inputs.resourceCount s
        - min (c.inputs.resourceCount s) (p.outputs.resourceCount s)
    ∧ (Recipe.mergeCancel c p).2.resourceCount s
      = p.outputs.resourceCount s
        - min (c.inputs.resourceCount s) (p.outputs.resourceCount s) := by
  have hgo := mergeCancel_go_spec c.inputs.map c.inputs p.outputs hci.1 hci.2 hci hpo
    (fun _ hq => lookupQ_of_mem_nodup hci.1 hq)
  unfold Recipe.mergeCancel
  cases hm : memKey s c.inputs.map with
  | true =>
    have hmem : (s, lookupQ s c.inputs.map) ∈ c.inputs.map := lookupQ_mem hm
    have := hgo.2.2 (s, lookupQ s c.inputs.map) hmem
    exact this
  | false =>
    have hu := hgo.2.1 s hm
    have hz : c.inputs.resourceCount s = 0 := lookupQ_eq_zero_of_memKey_false hm
    have hminz : min (c.inputs.resourceCount s) (p.outputs.resourceCount s) = 0 := by
      rw [hz]
      exact min_eq_left (ResourceMap.resourceCount_nonneg hpo s)
    constructor
    · rw [hu.1, hminz, hz, sub_zero]
    · rw [hu.2.1, hminz, sub_zero]

theorem mergeRecipes_inputs_count {c p : Recipe} (hci : c.inputs.WF) (hpo : p.outputs.WF)
    (s : ResourceTypes) :
    (Recipe.mergeRecipes c p).inputs.resourceCount s
      = p.inputs.resourceCount s
        + (c.inputs.resourceCount s
            - min (c.inputs.resourceCount s) (p.outputs.resourceCount s)) := by
  have hwf := (mergeCancel_WF hci hpo).1
  show ((p.inputs.clone).addAll (Recipe.mergeCancel c p).1.map).resourceCount s = _
  rw [ResourceMap.resourceCount_addAll hwf.1]
  rw [show lookupQ s (Recipe.mergeCancel c p).1.map
      = (Recipe.mergeCancel c p).1.resourceCount s from rfl,
    (mergeCancel_counts hci hpo s).1]
  rfl

theorem mergeRecipes_outputs_count {c p : Recipe} (hci : c.inputs.WF) (hpo : p.outputs.WF)
    (hco : c.outputs.WF) (s : ResourceTypes) :
    (Recipe.mergeRecipes c p).outputs.resourceCount s
      = (p.outputs.resourceCount s
          - min (c.inputs.resourceCount s) (p.outputs.resourceCount s))
        + c.outputs.resourceCount s := by
  show (((Recipe.mergeCancel c p).2.clone).addAll c.outputs.map).resourceCount s = _
  rw [ResourceMap.resourceCount_addAll hco.1]
  rw [show ((Recipe.mergeCancel c p).2.clone).resourceCount s
      = (Recipe.mergeCancel c p).2.resourceCount s from rfl,
    (mergeCancel_counts hci hpo s).2]
  rfl

theorem mergeRecipes_WF {c p : Recipe} (hc : c.WF) (hp : p.WF) :
    (Recipe.mergeRecipes c p).WF := by
  have hwf := mergeCancel_WF hc.1 hp.2
  constructor
  · exact ResourceMap.WF_addAll hp.1 (fun q hq => le_of_lt (hwf.1.2 q hq))
  · exact ResourceMap.WF_addAll hwf.2 (fun q hq => le_of_lt (hc.2.2 q hq))

/-! Concrete recipes and policies used to instantiate the claims. -/

/-- Recipe A of the end-to-end scenario: inputs `{X: 1}`, outputs `{Y: 2}`
(X = 0, Y = 1, Z = 2). -/
def recipeA : Recipe := ⟨⟨[(0, 1)]⟩, ⟨[(1, 2)]⟩⟩

/-- Recipe B of the end-to-end scenario: inputs `{Z: 1}`, outputs `{X: 3}`. -/
def recipeB : Recipe := ⟨⟨[(2, 1)]⟩, ⟨[(0, 3)]⟩⟩

/-- The exact-mode multiplier policy: `almostLeastCommonMultiple` with
`error = 0`.  The fuel is ample for every input the policy is evaluated on
here (the loop returns within the first few iterations). -/
def exactRatioPolicy (a b : ℚ) : ℚ × ℚ :=
  (almostLeastCommonMultiple a b 0 20).getD (0, 0)

/-- A stand-in enumeration-name table (the real one maps every recipe
identifier to its PascalCase enum name; no name is `"custom"`). -/
def trivialTypeName : ℕ → String := fun _ => "t"

/-- A stand-in catalog; irrelevant when the candidate list holds only
literal recipes. -/
def emptyCatalog : ℕ → Recipe := fun _ => ⟨⟨[]⟩, ⟨[]⟩⟩

/-- Recipe with inputs `{X: 3, W: 5}` (X = 0, W = 3) used to refute C2. -/
def selfC2 : Recipe := ⟨⟨[(0, 3), (3, 5)]⟩, ⟨[]⟩⟩

/-- Producer with inputs `{Z: 1}` and outputs `{X: 2, W: 2}` used to refute
C2. -/
def prodC2 : Recipe := ⟨⟨[(2, 1)]⟩, ⟨[(0, 2), (3, 2)]⟩⟩

/-- C1: consumer/producer merge cancellation follows the three-way rule: for
every resource in both the consumer's inputs and the producer's outputs,
if the producer output exceeds the consumer input the output is reduced by
the input amount and the resource is removed from the consumer inputs; if
equal, it is removed from both; if smaller, it is removed from the producer
outputs and the consumer input is reduced by the output amount.  In
particular, merging producer output `{X: 10}` with consumer input `{X: 4}`
leaves `{X: 6}` in the result's outputs and no `X` in the result's inputs. -/
theorem C1_merge_three_way_cancellation :
    (∀ (c p : Recipe), c.inputs.WF → p.outputs.WF → ∀ r : ResourceTypes,
      c.inputs.hasResource r = true → p.outputs.hasResource r = true →
      (p.outputs.resourceCount r > c.inputs.resourceCount r →
          (Recipe.mergeCancel c p).2.resourceCount r
            = p.outputs.resourceCount r - c.inputs.resourceCount r
          ∧ (Recipe.mergeCancel c p).1.hasResource r = false)
      ∧ (p.outputs.resourceCount r = c.inputs.resourceCount r →
          (Recipe.mergeCancel c p).2.hasResource r = false
          ∧ (Recipe.mergeCancel c p).1.hasResource r = false)
      ∧ (p.outputs.resourceCount r < c.inputs.resourceCount r →
          (Recipe.mergeCancel c p).2.hasResource r = false
          ∧ (Recipe.mergeCancel c p).1.resourceCount r
            = c.inputs.resourceCount r - p.outputs.resourceCount r))
    ∧ (Recipe.mergeRecipes ⟨⟨[(0, 4)]⟩, ⟨[]⟩⟩ ⟨⟨[]⟩, ⟨[(0, 10)]⟩⟩).outputs.resourceCount 0 = 6
    ∧ (Recipe.mergeRecipes ⟨⟨[(0, 4)]⟩, ⟨[]⟩⟩ ⟨⟨[]⟩, ⟨[(0, 10)]⟩⟩).inputs.hasResource 0 = false := by
  refine ⟨?_, ?_, ?_⟩
  · intro c p hci hpo r _ _
    have hcount := mergeCancel_counts hci hpo r
    have hwf := mergeCancel_WF hci hpo
    refine ⟨?_, ?_, ?_⟩
    · intro hgt
      have hmin : min (c.inputs.resourceCount r) (p.outputs.resourceCount r)
          = c.inputs.resourceCount r := min_eq_left (le_of_lt hgt)
      refine ⟨by rw [hcount.2, hmin], ?_⟩
      rw [ResourceMap.not_hasResource_iff_zero hwf.1, hcount.1, hmin, sub_self]
    · intro heq
      have hmin : min (c.inputs.resourceCount r) (p.outputs.resourceCount r)
          = c.inputs.resourceCount r := by rw [heq, min_self]
      constructor
      · rw [ResourceMap.not_hasResource_iff_zero hwf.2, hcount.2, hmin, heq, sub_self]
      · rw [ResourceMap.not_hasResource_iff_zero hwf.1, hcount.1, hmin, sub_self]
    · intro hlt
      have hmin : min (c.inputs.resourceCount r) (p.outputs.resourceCount r)
          = p.outputs.resourceCount r := min_eq_right (le_of_lt hlt)
      constructor
      · rw [ResourceMap.not_hasResource_iff_zero hwf.2, hcount.2, hmin, sub_self]
      · rw [hcount.1, hmin]
  · norm_num [Recipe.mergeRecipes, Recipe.mergeCancel, Recipe.mergeCancelStep,
      ResourceMap.addResource, ResourceMap.removeResource, ResourceMap.addAll,
      ResourceMap.clone, ResourceMap.hasResource, memKey, ResourceMap.resourceCount,
      lookupQ, eraseKey, bumpKey]
  · norm_num [Recipe.mergeRecipes, Recipe.mergeCancel, Recipe.mergeCancelStep,
      ResourceMap.addResource, ResourceMap.removeResource, ResourceMap.addAll,
      ResourceMap.clone, ResourceMap.hasResource, memKey, ResourceMap.resourceCount,
      lookupQ, eraseKey, bumpKey]

/-- Witness for C1 at producer output `{X: 10}`, consumer input `{X: 4}`. -/
theorem C1_witness :
    (Recipe.mergeCancel ⟨⟨[(0, 4)]⟩, ⟨[]⟩⟩ ⟨⟨[]⟩, ⟨[(0, 10)]⟩⟩).2.resourceCount 0 = 6
    ∧ (Recipe.mergeCancel ⟨⟨[(0, 4)]⟩, ⟨[]⟩⟩ ⟨⟨[]⟩, ⟨[(0, 10)]⟩⟩).1.hasResource 0 = false := by
  have h := (C1_merge_three_way_cancellation.1 ⟨⟨[(0, 4)]⟩, ⟨[]⟩⟩ ⟨⟨[]⟩, ⟨[(0, 10)]⟩⟩
    (by decide) (by decide) 0 (by decide) (by decide)).1 (by decide)
  refine ⟨h.1.trans ?_, h.2⟩
  norm_num [ResourceMap.resourceCount, lookupQ]

/-- C4 (counterexample): adding a cancelling delta to an existing entry
stores quantity exactly `0`: after `add(r, 1)` then `add(r, -1)` on an empty
ledger, `has(r)` holds while `quantityOf(r) = 0`, refuting the claimed
invariant. -/
theorem C4_counterexample :
    (((ResourceMap.mk []).addResource 0 1).addResource 0 (-1)).hasResource 0 = true
    ∧ (((ResourceMap.mk []).addResource 0 1).addResource 0 (-1)).resourceCount 0 = 0 := by
  norm_num [ResourceMap.addResource, ResourceMap.hasResource, memKey,
    ResourceMap.resourceCount, lookupQ, bumpKey]

/-- C4 (amended): `add(r, 0)` is a no-op, and an absent resource is never
inserted with quantity `0`; the full no-zero-entry invariant fails because an
existing entry can be driven to exactly `0` (see the counterexample). -/
theorem C4_amended_zero_delta_noop :
    (∀ (m : ResourceMap) (r : ResourceTypes), m.addResource r 0 = m)
    ∧ (∀ (m : ResourceMap) (r : ResourceTypes) (c : ℚ), m.hasResource r = false →
        (m.addResource r c).hasResource r = true → c ≠ 0) := by
  constructor
  · exact ResourceMap.addResource_zero
  · intro m r c hm hc hc0
    rw [hc0, ResourceMap.addResource_zero, hm] at hc
    exact Bool.noConfusion hc

/-- Witness for the amended C4. -/
theorem C4_witness :
    ((ResourceMap.mk []).addResource 0 0 = ResourceMap.mk []) ∧ (1 : ℚ) ≠ 0 :=
  ⟨C4_amended_zero_delta_noop.1 (ResourceMap.mk []) 0,
   C4_amended_zero_delta_noop.2 (ResourceMap.mk []) 0 1 (by decide) (by decide)⟩

/-- Divergence of the trial-multiple loop on a zero operand: with
`lower = 0` neither accept test ever holds, so the loop never returns. -/
theorem alcmGo_zero_lower_none (n : ℕ) :
    ∀ bm : ℚ, 0 < bm → almostLeastCommonMultipleGo 0 1 0 0 bm n = none := by
  induction n with
  | zero => intro bm _; rfl
  | succ n ih =>
    intro bm hbm
    have hfloor : ((⌊bm / (0:ℚ)⌋ : ℤ) : ℚ) = 0 := by
      rw [div_zero]
      norm_num
    have hceil : ((⌈bm / (0:ℚ)⌉ : ℤ) : ℚ) = 0 := by
      rw [div_zero]
      norm_num
    have habs : |(0:ℚ) * 0 - bm| / bm = 1 := by
      rw [zero_mul, zero_sub, abs_neg, abs_of_pos hbm, div_self (ne_of_gt hbm)]
    show almostLeastCommonMultipleGo 0 1 0 0 bm (n + 1) = none
    rw [almostLeastCommonMultipleGo, hfloor, hceil, habs]
    rw [if_neg (by norm_num), if_neg (by norm_num)]
    exact ih (bm + 1) (by linarith)

/-- C6 (code_bug): `almostLeastCommonMultiple(0, 1, 0)` never returns — for
every fuel the loop is still running — instead of failing with a defined
DegenerateRatio error as the specification requires. -/
theorem C6_alcm_zero_operand_diverges (fuel : ℕ) :
    almostLeastCommonMultiple 0 1 0 fuel = none := by
  rw [almostLeastCommonMultiple, show max (0:ℚ) 1 = 1 by norm_num,
    show min (0:ℚ) 1 = 0 by norm_num]
  exact alcmGo_zero_lower_none fuel 1 one_pos

/-- C7: when the floor of output count over consumer input count is `0`
(a finite `0`, so the consumer input is non-zero), `applyConsumerRecipe`
reports "unchanged" and returns `self` exactly as it was. -/
theorem C7_applyConsumer_unchanged (self consumer : Recipe) (r : ResourceTypes)
    (h : jsFloorDiv (self.outputs.resourceCount r)
        (consumer.inputs.resourceCount r) = some 0) :
    Recipe.applyConsumerRecipe self consumer r = some (self, false) := by
  rw [Recipe.applyConsumerRecipe, h]
  simp

/-- Witness for C7: output `{X: 1}` against consumer input `{X: 2}` gives
multiplier `⌊1/2⌋ = 0`. -/
theorem C7_witness :
    jsFloorDiv ((⟨⟨[]⟩, ⟨[(0, 1)]⟩⟩ : Recipe).outputs.resourceCount 0)
        ((⟨⟨[(0, 2)]⟩, ⟨[]⟩⟩ : Recipe).inputs.resourceCount 0) = some 0
    ∧ Recipe.applyConsumerRecipe ⟨⟨[]⟩, ⟨[(0, 1)]⟩⟩ ⟨⟨[(0, 2)]⟩, ⟨[]⟩⟩ 0
      = some (⟨⟨[]⟩, ⟨[(0, 1)]⟩⟩, false) := by
  have h : jsFloorDiv ((⟨⟨[]⟩, ⟨[(0, 1)]⟩⟩ : Recipe).outputs.resourceCount 0)
      ((⟨⟨[(0, 2)]⟩, ⟨[]⟩⟩ : Recipe).inputs.resourceCount 0) = some 0 := by
    norm_num [jsFloorDiv, ResourceMap.resourceCount, lookupQ]
  exact ⟨h, C7_applyConsumer_unchanged _ _ _ h⟩

/-- C10: when the consumer's input count of the anchor resource is `0` and
self's output count is positive, the unguarded division produces a
non-finite multiplier: the `multiplier === 0` test fails, the "unchanged"
branch is not taken, and the consumer is scaled by an unbounded multiplier
(rendered as `none` in this model). -/
theorem C10_applyConsumer_unguarded_division (self consumer : Recipe) (r : ResourceTypes)
    (hci : consumer.inputs.resourceCount r = 0)
    (_hout : 0 < self.outputs.resourceCount r) :
    Recipe.applyConsumerRecipe self consumer r = none := by
  rw [Recipe.applyConsumerRecipe, jsFloorDiv, if_pos hci]

/-- Witness for C10: consumer with no input of the anchor resource, self
with output `{X: 5}`. -/
theorem C10_witness :
    Recipe.applyConsumerRecipe ⟨⟨[]⟩, ⟨[(0, 5)]⟩⟩ ⟨⟨[]⟩, ⟨[(1, 1)]⟩⟩ 0 = none :=
  C10_applyConsumer_unguarded_division ⟨⟨[]⟩, ⟨[(0, 5)]⟩⟩ ⟨⟨[]⟩, ⟨[(1, 1)]⟩⟩ 0
    (by decide) (by decide)

/-- C5: the end-to-end scenario — recipe A (`{X:1} → {Y:2}`) with candidate
producer B (`{Z:1} → {X:3}`) under the exact ratio policy: the policy scales
A by 3 and B by 1, and the substitution fixed point yields inputs `{Z: 1}`
and outputs `{Y: 6}`. -/
theorem C5_end_to_end_producer_substitution :
    exactRatioPolicy 1 3 = (3, 1)
    ∧ Recipe.applyProducerRecipesImpl recipeA [Sum.inr recipeB] exactRatioPolicy
        trivialTypeName emptyCatalog 10 = some ⟨⟨[(2, 1)]⟩, ⟨[(1, 6)]⟩⟩ := by
  constructor
  · norm_num [exactRatioPolicy, almostLeastCommonMultiple, almostLeastCommonMultipleGo]
  · norm_num [Recipe.applyProducerRecipesImpl, Recipe.applyProducerLoop,
      Recipe.applyProducerPass, applyProducerCandidateStep, Recipe.createRecipeMap,
      createRecipeMapStep, jsMapSet, memKeyS, setKeyS,
      Recipe.producerSubstitutionStep, Recipe.getOutputTypes, ResourceMap.getResourceTypes,
      ResourceMap.hasResource, memKey, ResourceMap.resourceCount, lookupQ, exactRatioPolicy,
      almostLeastCommonMultiple, almostLeastCommonMultipleGo, Recipe.mergeRecipes,
      Recipe.mergeCancel, Recipe.mergeCancelStep, ResourceMap.addResource,
      ResourceMap.removeResource, ResourceMap.addAll, ResourceMap.clone, Recipe.clone,
      Recipe.multiply, ResourceMap.multiply, scaleVals, eraseKey, bumpKey, recipeA, recipeB,
      trivialTypeName, emptyCatalog]

/-- C2 (counterexample): with self inputs `{X:3, W:5}` and candidate producer
`{Z:1} → {X:2, W:2}` under the no-scaling policy (multipliers `(1, ⌊3/2⌋) =
(1, 1)`), the substitution step on the first matched resource `r = X` yields
inputs `{Z:1, X:1, W:3}` and empty outputs: `r` is not removed from self's
inputs, and producer output `W` (≠ r) is not unioned into self's outputs —
refuting the claim as stated. -/
theorem C2_counterexample :
    Recipe.producerSubstitutionStep selfC2 prodC2 noScalingPolicy
      = some ⟨⟨[(2, 1), (0, 1), (3, 3)]⟩, ⟨[]⟩⟩
    ∧ (⟨⟨[(2, 1), (0, 1), (3, 3)]⟩, ⟨[]⟩⟩ : Recipe).inputs.hasResource 0 = true
    ∧ (⟨⟨[(2, 1), (0, 1), (3, 3)]⟩, ⟨[]⟩⟩ : Recipe).outputs.hasResource 3 = false := by
  refine ⟨?_, by decide, by decide⟩
  norm_num [Recipe.producerSubstitutionStep, noScalingPolicy, Recipe.getOutputTypes,
    ResourceMap.getResourceTypes, ResourceMap.hasResource, memKey, ResourceMap.resourceCount,
    lookupQ, Recipe.mergeRecipes, Recipe.mergeCancel, Recipe.mergeCancelStep,
    ResourceMap.addResource, ResourceMap.removeResource, ResourceMap.addAll,
    ResourceMap.clone, Recipe.clone, Recipe.multiply, ResourceMap.multiply, scaleVals,
    eraseKey, bumpKey, selfC2, prodC2]

/-- C2 (amended): a successful substitution step on the first matched
resource `r` (positive multipliers `m1`, `m2`) replaces self by the
consumer/producer merge of self scaled by `m1` with the producer scaled by
`m2`.  For every resource `s`, the resulting input quantity is
`m2·(producer input of s)` plus the part of `m1·(self input of s)` not
cancelled against `m2·(producer output of s)`, and the resulting output
quantity is the uncancelled part of `m2·(producer output of s)` plus
`m1·(self output of s)`.  Consequently `r` is absent from the result's
inputs iff `m1·(self input of r) ≤ m2·(producer output of r)` (guaranteed
in exact mode, not under no-scaling) and the producer does not itself
consume `r`. -/
theorem C2_amended_substitution_step_merge
    (self recipe : Recipe) (mf : ℚ → ℚ → ℚ × ℚ) (r : ResourceTypes)
    (rest : List ResourceTypes)
    (hmatch : (recipe.getOutputTypes).filter (fun t => self.inputs.hasResource t)
      = r :: rest)
    (m1 m2 : ℚ)
    (hmf : mf (self.inputs.resourceCount r) (recipe.outputs.resourceCount r) = (m1, m2))
    (hm1 : 0 < m1) (hm2 : 0 < m2)
    (hself : self.WF) (hrec : recipe.WF) :
    Recipe.producerSubstitutionStep self recipe mf
      = some (Recipe.mergeRecipes (self.multiply m1) ((recipe.clone).multiply m2))
    ∧ (∀ s,
        (Recipe.mergeRecipes (self.multiply m1)
            ((recipe.clone).multiply m2)).inputs.resourceCount s
          = recipe.inputs.resourceCount s * m2
            + (self.inputs.resourceCount s * m1
               - min (self.inputs.resourceCount s * m1)
                  (recipe.outputs.resourceCount s * m2))
        ∧ (Recipe.mergeRecipes (self.multiply m1)
            ((recipe.clone).multiply m2)).outputs.resourceCount s
          = (recipe.outputs.resourceCount s * m2
              - min (self.inputs.resourceCount s * m1)
                 (recipe.outputs.resourceCount s * m2))
            + self.outputs.resourceCount s * m1)
    ∧ ((Recipe.mergeRecipes (self.multiply m1)
          ((recipe.clone).multiply m2)).inputs.hasResource r = false
        ↔ self.inputs.resourceCount r * m1 ≤ recipe.outputs.resourceCount r * m2
          ∧ recipe.inputs.resourceCount r = 0) := by
  have hciWF : (self.multiply m1).inputs.WF := ResourceMap.WF_multiply hself.1 hm1
  have hcoWF : (self.multiply m1).outputs.WF := ResourceMap.WF_multiply hself.2 hm1
  have hpiWF : ((recipe.clone).multiply m2).inputs.WF := ResourceMap.WF_multiply hrec.1 hm2
  have hpoWF : ((recipe.clone).multiply m2).outputs.WF := ResourceMap.WF_multiply hrec.2 hm2
  have hcounts : ∀ s,
      (self.multiply m1).inputs.resourceCount s = self.inputs.resourceCount s * m1
      ∧ (self.multiply m1).outputs.resourceCount s = self.outputs.resourceCount s * m1
      ∧ ((recipe.clone).multiply m2).inputs.resourceCount s
          = recipe.inputs.resourceCount s * m2
      ∧ ((recipe.clone).multiply m2).outputs.resourceCount s
          = recipe.outputs.resourceCount s * m2 := by
    intro s
    exact ⟨ResourceMap.resourceCount_multiply _ _ _, ResourceMap.resourceCount_multiply _ _ _,
      ResourceMap.resourceCount_multiply _ _ _, ResourceMap.resourceCount_multiply _ _ _⟩
  have hII : ∀ s,
      (Recipe.mergeRecipes (self.multiply m1)
          ((recipe.clone).multiply m2)).inputs.resourceCount s
        = recipe.inputs.resourceCount s * m2
          + (self.inputs.resourceCount s * m1
             - min (self.inputs.resourceCount s * m1)
                (recipe.outputs.resourceCount s * m2)) := by
    intro s
    rw [mergeRecipes_inputs_count hciWF hpoWF s, (hcounts s).1, (hcounts s).2.2.1,
      (hcounts s).2.2.2]
  have hOO : ∀ s,
      (Recipe.mergeRecipes (self.multiply m1)
          ((recipe.clone).multiply m2)).outputs.resourceCount s
        = (recipe.outputs.resourceCount s * m2
            - min (self.inputs.resourceCount s * m1)
               (recipe.outputs.resourceCount s * m2))
          + self.outputs.resourceCount s * m1 := by
    intro s
    rw [mergeRecipes_outputs_count hciWF hpoWF hcoWF s, (hcounts s).1, (hcounts s).2.1,
      (hcounts s).2.2.2]
  refine ⟨?_, fun s => ⟨hII s, hOO s⟩, ?_⟩
  · rw [Recipe.producerSubstitutionStep, hmatch]
    show (if (mf (self.inputs.resourceCount r) (recipe.outputs.resourceCount r)).2 = 0
        then none
        else some (Recipe.mergeRecipes
          (self.multiply (mf (self.inputs.resourceCount r)
            (recipe.outputs.resourceCount r)).1)
          ((recipe.clone).multiply (mf (self.inputs.resourceCount r)
            (recipe.outputs.resourceCount r)).2))) = _
    rw [hmf]
    exact if_neg (ne_of_gt hm2)
  · have hWF : (Recipe.mergeRecipes (self.multiply m1)
        ((recipe.clone).multiply m2)).WF :=
      mergeRecipes_WF ⟨hciWF, hcoWF⟩ ⟨hpiWF, hpoWF⟩
    rw [ResourceMap.not_hasResource_iff_zero hWF.1, hII r]
    have hA : 0 ≤ recipe.inputs.resourceCount r * m2 :=
      mul_nonneg (ResourceMap.resourceCount_nonneg hrec.1 r) (le_of_lt hm2)
    have hB : 0 ≤ self.inputs.resourceCount r * m1
        - min (self.inputs.resourceCount r * m1) (recipe.outputs.resourceCount r * m2) := by
      have := min_le_left (self.inputs.resourceCount r * m1)
        (recipe.outputs.resourceCount r * m2)
      linarith
    constructor
    · intro h
      have hA0 : recipe.inputs.resourceCount r * m2 = 0 := by linarith
      have hB0 : self.inputs.resourceCount r * m1
          - min (self.inputs.resourceCount r * m1)
            (recipe.outputs.resourceCount r * m2) = 0 := by linarith
      constructor
      · have : self.inputs.resourceCount r * m1
            = min (self.inputs.resourceCount r * m1)
              (recipe.outputs.resourceCount r * m2) := by linarith
        exact min_eq_left_iff.mp this.symm
      · rcases mul_eq_zero.mp hA0 with h1 | h2
        · exact h1
        · exact absurd h2 (ne_of_gt hm2)
    · rintro ⟨hle, hz⟩
      rw [hz, zero_mul, min_eq_left hle, sub_self, add_zero]

/-- Witness for the amended C2 at the end-to-end scenario recipes under the
exact ratio policy. -/
theorem C2_witness :
    Recipe.producerSubstitutionStep recipeA recipeB exactRatioPolicy
      = some (Recipe.mergeRecipes (recipeA.multiply 3) ((recipeB.clone).multiply 1))
    ∧ (Recipe.mergeRecipes (recipeA.multiply 3)
        ((recipeB.clone).multiply 1)).inputs.resourceCount 2
      = recipeB.inputs.resourceCount 2 * 1
        + (recipeA.inputs.resourceCount 2 * 3
           - min (recipeA.inputs.resourceCount 2 * 3)
              (recipeB.outputs.resourceCount 2 * 1))
    ∧ ((Recipe.mergeRecipes (recipeA.multiply 3)
          ((recipeB.clone).multiply 1)).inputs.hasResource 0 = false
        ↔ recipeA.inputs.resourceCount 0 * 3 ≤ recipeB.outputs.resourceCount 0 * 1
          ∧ recipeB.inputs.resourceCount 0 = 0) := by
  have hmatch : (recipeB.getOutputTypes).filter
      (fun t => recipeA.inputs.hasResource t) = 0 :: [] := by decide
  have hmf : exactRatioPolicy (recipeA.inputs.resourceCount 0)
      (recipeB.outputs.resourceCount 0) = (3, 1) := by
    norm_num [recipeA, recipeB, ResourceMap.resourceCount, lookupQ, exactRatioPolicy,
      almostLeastCommonMultiple, almostLeastCommonMultipleGo]
  have h := C2_amended_substitution_step_merge recipeA recipeB exactRatioPolicy 0 []
    hmatch 3 1 hmf (by norm_num) (by norm_num) (by decide) (by decide)
  exact ⟨h.1, (h.2.1 2).1, h.2.2⟩

/-! The fixed-point property of producer substitution. -/

theorem applyProducerCandidateStep_snd_true (mf : ℚ → ℚ → ℚ × ℚ) (acc : Recipe × Bool)
    (e : String × Recipe) (h : acc.2 = true) :
    (applyProducerCandidateStep mf acc e).2 = true := by
  rw [applyProducerCandidateStep]
  cases hs : Recipe.producerSubstitutionStep acc.1 e.2 mf with
  | none => exact h
  | some merged => rfl

theorem applyProducerPass_snd_true (mf : ℚ → ℚ → ℚ × ℚ) (m : List (String × Recipe)) :
    ∀ acc : Recipe × Bool, acc.2 = true → (Recipe.applyProducerPass mf m acc).2 = true := by
  induction m with
  | nil => intro acc h; exact h
  | cons e m ih =>
    intro acc h
    exact ih (applyProducerCandidateStep mf acc e)
      (applyProducerCandidateStep_snd_true mf acc e h)

theorem applyProducerPass_false_eq (mf : ℚ → ℚ → ℚ × ℚ) (m : List (String × Recipe)) :
    ∀ acc : Recipe × Bool, (Recipe.applyProducerPass mf m acc).2 = false →
    Recipe.applyProducerPass mf m acc = acc := by
  induction m with
  | nil => intro acc _; rfl
  | cons e m ih =>
    intro acc h
    have hrw : Recipe.applyProducerPass mf (e :: m) acc
        = Recipe.applyProducerPass mf m (applyProducerCandidateStep mf acc e) := rfl
    rw [hrw] at h ⊢
    cases hs : Recipe.producerSubstitutionStep acc.1 e.2 mf with
    | none =>
      have hstep : applyProducerCandidateStep mf acc e = acc := by
        rw [applyProducerCandidateStep, hs]
      rw [hstep] at h ⊢
      exact ih acc h
    | some merged =>
      have hstep : applyProducerCandidateStep mf acc e = (merged, true) := by
        rw [applyProducerCandidateStep, hs]
      rw [hstep] at h
      have htrue := applyProducerPass_snd_true mf m (merged, true) rfl
      rw [h] at htrue
      exact Bool.noConfusion htrue

theorem applyProducerLoop_some_pass_false (mf : ℚ → ℚ → ℚ × ℚ)
    (m : List (String × Recipe)) :
    ∀ (fuel : ℕ) (self r : Recipe), Recipe.applyProducerLoop mf m self fuel = some r →
    Recipe.applyProducerPass mf m (r, false) = (r, false) := by
  intro fuel
  induction fuel with
  | zero => intro self r h; exact Option.noConfusion h
  | succ n ih =>
    intro self r h
    rw [Recipe.applyProducerLoop] at h
    cases hp : Recipe.applyProducerPass mf m (self, false) with
    | mk s2 u =>
      rw [hp] at h
      cases u with
      | true => exact ih s2 r h
      | false =>
        have hs2 : s2 = r := Option.some.inj h
        have heq := applyProducerPass_false_eq mf m (self, false) (by rw [hp])
        rw [hp] at heq
        have hself : s2 = self := congrArg Prod.fst heq
        rw [← hs2, hself]
        rw [hself] at hp
        exact hp

/-- C8: producer substitution is idempotent at its fixed point — if a run of
`applyProducerRecipesImpl` completed (returned a recipe within its fuel),
re-invoking it on the result with the same candidate list, policy, and
catalog returns the result unchanged (for any positive fuel). -/
theorem C8_producer_substitution_fixed_point (self r : Recipe)
    (recipes : List (ℕ ⊕ Recipe)) (mf : ℚ → ℚ → ℚ × ℚ) (tn : ℕ → String)
    (cat : ℕ → Recipe) (fuel fuel2 : ℕ)
    (h : Recipe.applyProducerRecipesImpl self recipes mf tn cat fuel = some r)
    (h2 : 0 < fuel2) :
    Recipe.applyProducerRecipesImpl r recipes mf tn cat fuel2 = some r := by
  rw [Recipe.applyProducerRecipesImpl] at h
  have hp := applyProducerLoop_some_pass_false mf
    (Recipe.createRecipeMap tn cat recipes) fuel self r h
  cases fuel2 with
  | zero => exact absurd h2 (lt_irrefl 0)
  | succ k =>
    rw [Recipe.applyProducerRecipesImpl, Recipe.applyProducerLoop, hp]

/-- Witness for C8: the completed end-to-end run (fuel 10) is left unchanged
by a re-run with fuel 1. -/
theorem C8_witness :
    Recipe.applyProducerRecipesImpl ⟨⟨[(2, 1)]⟩, ⟨[(1, 6)]⟩⟩ [Sum.inr recipeB]
      exactRatioPolicy trivialTypeName emptyCatalog 1 = some ⟨⟨[(2, 1)]⟩, ⟨[(1, 6)]⟩⟩ := by
  refine C8_producer_substitution_fixed_point recipeA ⟨⟨[(2, 1)]⟩, ⟨[(1, 6)]⟩⟩
    [Sum.inr recipeB] exactRatioPolicy trivialTypeName emptyCatalog 10 1 ?_ (by norm_num)
  norm_num [Recipe.applyProducerRecipesImpl, Recipe.applyProducerLoop,
    Recipe.applyProducerPass, applyProducerCandidateStep, Recipe.createRecipeMap,
    createRecipeMapStep, jsMapSet, memKeyS, setKeyS, Recipe.producerSubstitutionStep,
    Recipe.getOutputTypes, ResourceMap.getResourceTypes, ResourceMap.hasResource, memKey,
    ResourceMap.resourceCount, lookupQ, exactRatioPolicy, almostLeastCommonMultiple,
    almostLeastCommonMultipleGo, Recipe.mergeRecipes, Recipe.mergeCancel,
    Recipe.mergeCancelStep, ResourceMap.addResource, ResourceMap.removeResource,
    ResourceMap.addAll, ResourceMap.clone, Recipe.clone, Recipe.multiply,
    ResourceMap.multiply, scaleVals, eraseKey, bumpKey, recipeA, recipeB,
    trivialTypeName, emptyCatalog]

/-! Behaviour of `createRecipeMap` on literal recipes (claim C9). -/

theorem lookupRecipe_setKeyS_self {k : String} {l : List (String × Recipe)}
    (h : memKeyS k l = true) (v : Recipe) :
    lookupRecipe k (setKeyS k v l) = some v := by
  induction l with
  | nil => exact Bool.noConfusion h
  | cons p l ih =>
    by_cases hp : p.1 = k
    · rw [setKeyS, if_pos hp, lookupRecipe, if_pos hp]
    · rw [memKeyS, if_neg hp] at h
      rw [setKeyS, if_neg hp, lookupRecipe, if_neg hp]
      exact ih h

theorem lookupRecipe_setKeyS_ne {k2 k : String} (hne : k2 ≠ k) (v : Recipe)
    (l : List (String × Recipe)) :
    lookupRecipe k2 (setKeyS k v l) = lookupRecipe k2 l := by
  induction l with
  | nil => rfl
  | cons p l ih =>
    by_cases hp : p.1 = k
    · have h1 : ¬ p.1 = k2 := fun he => hne (he ▸ hp)
      rw [setKeyS, if_pos hp]
      show lookupRecipe k2 ((p.1, v) :: setKeyS k v l) = _
      rw [lookupRecipe, if_neg h1, lookupRecipe, if_neg h1]
      exact ih
    · rw [setKeyS, if_neg hp]
      by_cases hp2 : p.1 = k2
      · rw [lookupRecipe, if_pos hp2, lookupRecipe, if_pos hp2]
      · rw [lookupRecipe, if_neg hp2, lookupRecipe, if_neg hp2]
        exact ih

theorem lookupRecipe_append_self {k : String} {l : List (String × Recipe)}
    (h : memKeyS k l = false) (v : Recipe) :
    lookupRecipe k (l ++ [(k, v)]) = some v := by
  induction l with
  | nil => rw [List.nil_append, lookupRecipe, if_pos rfl]
  | cons p l ih =>
    by_cases hp : p.1 = k
    · rw [memKeyS, if_pos hp] at h
      exact Bool.noConfusion h
    · rw [memKeyS, if_neg hp] at h
      rw [List.cons_append, lookupRecipe, if_neg hp]
      exact ih h

theorem lookupRecipe_append_ne {k2 k : String} (hne : k2 ≠ k) (v : Recipe)
    (l : List (String × Recipe)) :
    lookupRecipe k2 (l ++ [(k, v)]) = lookupRecipe k2 l := by
  induction l with
  | nil =>
    have h1 : ¬ k = k2 := fun he => hne he.symm
    simp only [List.nil_append, lookupRecipe]
    rw [if_neg h1]
  | cons p l ih =>
    by_cases hp : p.1 = k2
    · rw [List.cons_append, lookupRecipe, if_pos hp, lookupRecipe, if_pos hp]
    · rw [List.cons_append, lookupRecipe, if_neg hp, lookupRecipe, if_neg hp]
      exact ih

theorem jsMapSet_lookup_self (l : List (String × Recipe)) (k : String) (v : Recipe) :
    lookupRecipe k (jsMapSet l k v) = some v := by
  rw [jsMapSet]
  by_cases hB : memKeyS k l = true
  · rw [if_pos hB]
    exact lookupRecipe_setKeyS_self hB v
  · rw [if_neg hB]
    have hm : memKeyS k l = false := by
      cases h2 : memKeyS k l with
      | false => rfl
      | true => exact absurd h2 hB
    exact lookupRecipe_append_self hm v

theorem jsMapSet_lookup_ne {k2 k : String} (hne : k2 ≠ k) (l : List (String × Recipe))
    (v : Recipe) : lookupRecipe k2 (jsMapSet l k v) = lookupRecipe k2 l := by
  rw [jsMapSet]
  by_cases hB : memKeyS k l = true
  · rw [if_pos hB]
    exact lookupRecipe_setKeyS_ne hne v l
  · rw [if_neg hB]
    exact lookupRecipe_append_ne hne v l

/-- Accumulator step returning the last literal recipe seen so far. -/
def lastLiteralStep (acc : Option Recipe) (x : ℕ ⊕ Recipe) : Option Recipe :=
  match x with
  | Sum.inl _ => acc
  | Sum.inr q => some q

/-- The last literal `Recipe` in a candidate list, if any. -/
def lastLiteral (l : List (ℕ ⊕ Recipe)) : Option Recipe :=
  l.foldl lastLiteralStep none

theorem createRecipeMapGo_lookup (tn : ℕ → String) (cat : ℕ → Recipe)
    (hname : ∀ t, tn t ≠ "custom") :
    ∀ (l : List (ℕ ⊕ Recipe)) (m : List (String × Recipe)),
    lookupRecipe "custom" (l.foldl (createRecipeMapStep tn cat) m)
      = l.foldl lastLiteralStep (lookupRecipe "custom" m) := by
  intro l
  induction l with
  | nil => intro m; rfl
  | cons x l ih =>
    intro m
    cases x with
    | inl t =>
      rw [List.foldl_cons, List.foldl_cons]
      have h1 : createRecipeMapStep tn cat m (Sum.inl t) = jsMapSet m (tn t) (cat t) := rfl
      have h2 : lastLiteralStep (lookupRecipe "custom" m) (Sum.inl t)
          = lookupRecipe "custom" m := rfl
      rw [h1, h2, ih]
      rw [jsMapSet_lookup_ne (fun he => hname t he.symm)]
    | inr q =>
      rw [List.foldl_cons, List.foldl_cons]
      have h1 : createRecipeMapStep tn cat m (Sum.inr q) = jsMapSet m "custom" q := rfl
      have h2 : lastLiteralStep (lookupRecipe "custom" m) (Sum.inr q) = some q := rfl
      rw [h1, h2, ih, jsMapSet_lookup_self]

/-- C9: every literal `Recipe` in the candidate list is stored under the
single map key `"custom"` (identifiers use their enumeration names, none of
which is `"custom"`), so the `"custom"` entry holds exactly the last literal
recipe of the list; consequently replacing any earlier literal recipe by an
arbitrary other one produces the identical candidate map, and
`applyProducerRecipesImpl` gives identical results — every literal but the
last is silently ignored. -/
theorem C9_only_last_literal_recipe_used (tn : ℕ → String) (cat : ℕ → Recipe)
    (hname : ∀ t, tn t ≠ "custom") :
    (∀ l : List (ℕ ⊕ Recipe),
        lookupRecipe "custom" (Recipe.createRecipeMap tn cat l) = lastLiteral l)
    ∧ (∀ (A C B : Recipe) (l : List (ℕ ⊕ Recipe)),
        Recipe.createRecipeMap tn cat (Sum.inr A :: Sum.inr B :: l)
          = Recipe.createRecipeMap tn cat (Sum.inr C :: Sum.inr B :: l))
    ∧ (∀ (A C B : Recipe) (l : List (ℕ ⊕ Recipe)) (self : Recipe)
        (mf : ℚ → ℚ → ℚ × ℚ) (fuel : ℕ),
        Recipe.applyProducerRecipesImpl self (Sum.inr A :: Sum.inr B :: l) mf tn cat fuel
          = Recipe.applyProducerRecipesImpl self (Sum.inr C :: Sum.inr B :: l) mf tn cat fuel) := by
  have hmap : ∀ (A C B : Recipe) (l : List (ℕ ⊕ Recipe)),
      Recipe.createRecipeMap tn cat (Sum.inr A :: Sum.inr B :: l)
        = Recipe.createRecipeMap tn cat (Sum.inr C :: Sum.inr B :: l) := by
    intro A C B l
    have hX : ∀ X : Recipe,
        createRecipeMapStep tn cat (createRecipeMapStep tn cat [] (Sum.inr X)) (Sum.inr B)
          = [("custom", B)] := by
      intro X
      show jsMapSet (jsMapSet [] "custom" X) "custom" B = [("custom", B)]
      have hinner : jsMapSet [] "custom" X = [("custom", X)] := by
        rw [jsMapSet, if_neg (by decide), List.nil_append]
      rw [hinner, jsMapSet, if_pos (by rw [memKeyS, if_pos rfl]),
        setKeyS, if_pos rfl, setKeyS]
    rw [Recipe.createRecipeMap, Recipe.createRecipeMap, List.foldl_cons, List.foldl_cons,
      List.foldl_cons, List.foldl_cons, hX A, hX C]
  refine ⟨?_, hmap, ?_⟩
  · intro l
    exact createRecipeMapGo_lookup tn cat hname l []
  · intro A C B l self mf fuel
    rw [Recipe.applyProducerRecipesImpl, Recipe.applyProducerRecipesImpl, hmap A C B l]

/-- Witness for C9 at a concrete candidate list holding two literal
recipes. -/
theorem C9_witness :
    lookupRecipe "custom"
      (Recipe.createRecipeMap trivialTypeName emptyCatalog
        [Sum.inl 0, Sum.inr recipeA, Sum.inr recipeB])
      = lastLiteral [Sum.inl 0, Sum.inr recipeA, Sum.inr recipeB] :=
  (C9_only_last_literal_recipe_used trivialTypeName emptyCatalog
    (fun _ => show "t" ≠ "custom" by decide)).1
    [Sum.inl 0, Sum.inr recipeA, Sum.inr recipeB]

/-! Exactness of `almostLeastCommonMultiple` with error 0 (claim C3). -/

theorem rat_floor_mul_eq_iff (m L : ℕ) (hL : 0 < L) :
    (L : ℚ) * ((⌊(m : ℚ) / (L : ℚ)⌋ : ℤ) : ℚ) = (m : ℚ) ↔ L ∣ m := by
  constructor
  · intro h
    have hZ : (L : ℤ) * ⌊(m : ℚ) / (L : ℚ)⌋ = (m : ℤ) := by exact_mod_cast h
    exact Int.natCast_dvd_natCast.mp ⟨⌊(m : ℚ) / (L : ℚ)⌋, hZ.symm⟩
  · rintro ⟨d, rfl⟩
    have hL0 : (L : ℚ) ≠ 0 := Nat.cast_ne_zero.mpr (ne_of_gt hL)
    have hdiv : ((L * d : ℕ) : ℚ) / (L : ℚ) = (d : ℚ) := by
      push_cast
      rw [mul_comm, mul_div_assoc, div_self hL0, mul_one]
    rw [hdiv, Int.floor_natCast]
    push_cast
    ring

theorem rat_ceil_mul_eq_iff (m L : ℕ) (hL : 0 < L) :
    (L : ℚ) * ((⌈(m : ℚ) / (L : ℚ)⌉ : ℤ) : ℚ) = (m : ℚ) ↔ L ∣ m := by
  constructor
  · intro h
    have hZ : (L : ℤ) * ⌈(m : ℚ) / (L : ℚ)⌉ = (m : ℤ) := by exact_mod_cast h
    exact Int.natCast_dvd_natCast.mp ⟨⌈(m : ℚ) / (L : ℚ)⌉, hZ.symm⟩
  · rintro ⟨d, rfl⟩
    have hL0 : (L : ℚ) ≠ 0 := Nat.cast_ne_zero.mpr (ne_of_gt hL)
    have hdiv : ((L * d : ℕ) : ℚ) / (L : ℚ) = (d : ℚ) := by
      push_cast
      rw [mul_comm, mul_div_assoc, div_self hL0, mul_one]
    rw [hdiv, Int.ceil_natCast]
    push_cast
    ring

theorem abs_div_nonpos_iff (x bm : ℚ) (hbm : 0 < bm) : |x| / bm ≤ 0 ↔ x = 0 := by
  constructor
  · intro h
    have h2 : 0 ≤ |x| / bm := div_nonneg (abs_nonneg x) (le_of_lt hbm)
    have h3 : |x| / bm = 0 := le_antisymm h h2
    rcases div_eq_zero_iff.mp h3 with h4 | h4
    · exact abs_eq_zero.mp h4
    · exact absurd h4 (ne_of_gt hbm)
  · intro h
    rw [h, abs_zero, zero_div]

theorem alcmGo_exact_spec (a b : ℕ) (ha : 0 < a) (hb : 0 < b) :
    ∀ (fuel j : ℕ), 0 < j → (∃ d, d < fuel ∧ (min a b) ∣ (j + d) * (max a b)) →
    ∃ m1 m2 : ℚ,
      almostLeastCommonMultipleGo (a : ℚ) ((max a b : ℕ) : ℚ) ((min a b : ℕ) : ℚ) 0
        ((j * max a b : ℕ) : ℚ) fuel = some (m1, m2)
      ∧ (a : ℚ) * m1 = (b : ℚ) * m2 := by
  have hBpos : 0 < max a b := lt_of_lt_of_le ha (le_max_left a b)
  have hLpos : 0 < min a b := lt_min ha hb
  have hBne : ((max a b : ℕ) : ℚ) ≠ 0 := Nat.cast_ne_zero.mpr (ne_of_gt hBpos)
  intro fuel
  induction fuel with
  | zero =>
    intro j _ hex
    obtain ⟨d, hd, _⟩ := hex
    exact absurd hd (Nat.not_lt_zero d)
  | succ n ih =>
    intro j hj hex
    obtain ⟨d, hd, hdvd⟩ := hex
    have hbm : (0 : ℚ) < ((j * max a b : ℕ) : ℚ) :=
      Nat.cast_pos.mpr (mul_pos hj hBpos)
    by_cases hdvd0 : min a b ∣ j * max a b
    · have hfl := (rat_floor_mul_eq_iff (j * max a b) (min a b) hLpos).mpr hdvd0
      have hcond : |((min a b : ℕ) : ℚ)
            * ((⌊((j * max a b : ℕ) : ℚ) / ((min a b : ℕ) : ℚ)⌋ : ℤ) : ℚ)
            - ((j * max a b : ℕ) : ℚ)| / ((j * max a b : ℕ) : ℚ) ≤ 0 := by
        rw [hfl, sub_self, abs_zero, zero_div]
      simp only [almostLeastCommonMultipleGo]
      rw [if_pos hcond]
      by_cases hab : (a : ℚ) = ((max a b : ℕ) : ℚ)
      · rw [if_pos hab]
        refine ⟨_, _, rfl, ?_⟩
        have haB : a = max a b := Nat.cast_inj.mp hab
        have hble : b ≤ a := haB ▸ le_max_right a b
        have hLb : min a b = b := min_eq_right hble
        have h1 : (a : ℚ) * (((j * max a b : ℕ) : ℚ) / ((max a b : ℕ) : ℚ))
            = ((j * max a b : ℕ) : ℚ) := by
          rw [hab, mul_comm, div_mul_cancel₀ _ hBne]
        have h2 : (b : ℚ)
            * ((⌊((j * max a b : ℕ) : ℚ) / ((min a b : ℕ) : ℚ)⌋ : ℤ) : ℚ)
            = ((j * max a b : ℕ) : ℚ) := by
          have hc : ((min a b : ℕ) : ℚ) = (b : ℚ) := by exact_mod_cast congrArg Nat.cast hLb
          rw [← hc]
          exact hfl
        rw [h1, h2]
      · rw [if_neg hab]
        refine ⟨_, _, rfl, ?_⟩
        have haneB : a ≠ max a b := fun h => hab (by rw [← h])
        have hBb : max a b = b := by
          rcases max_choice a b with h | h
          · exact absurd h (fun h2 => haneB h2.symm)
          · exact h
        have hab2 : a ≤ b := max_eq_right_iff.mp hBb
        have hLa : min a b = a := min_eq_left hab2
        have h1 : (a : ℚ)
            * ((⌊((j * max a b : ℕ) : ℚ) / ((min a b : ℕ) : ℚ)⌋ : ℤ) : ℚ)
            = ((j * max a b : ℕ) : ℚ) := by
          have hc : ((min a b : ℕ) : ℚ) = (a : ℚ) := by exact_mod_cast congrArg Nat.cast hLa
          rw [← hc]
          exact hfl
        have h2 : (b : ℚ) * (((j * max a b : ℕ) : ℚ) / ((max a b : ℕ) : ℚ))
            = ((j * max a b : ℕ) : ℚ) := by
          have hc : ((max a b : ℕ) : ℚ) = (b : ℚ) := by exact_mod_cast congrArg Nat.cast hBb
          rw [← hc, mul_comm, div_mul_cancel₀ _ hBne]
        rw [h1, h2]
    · have hc1 : ¬ (|((min a b : ℕ) : ℚ)
            * ((⌊((j * max a b : ℕ) : ℚ) / ((min a b : ℕ) : ℚ)⌋ : ℤ) : ℚ)
            - ((j * max a b : ℕ) : ℚ)| / ((j * max a b : ℕ) : ℚ) ≤ 0) := by
        rw [abs_div_nonpos_iff _ _ hbm, sub_eq_zero]
        intro h
        exact hdvd0 ((rat_floor_mul_eq_iff _ _ hLpos).mp h)
      have hc2 : ¬ (|((min a b : ℕ) : ℚ)
            * ((⌈((j * max a b : ℕ) : ℚ) / ((min a b : ℕ) : ℚ)⌉ : ℤ) : ℚ)
            - ((j * max a b : ℕ) : ℚ)| / ((j * max a b : ℕ) : ℚ) ≤ 0) := by
        rw [abs_div_nonpos_iff _ _ hbm, sub_eq_zero]
        intro h
        exact hdvd0 ((rat_ceil_mul_eq_iff _ _ hLpos).mp h)
      have hd0 : d ≠ 0 := by
        intro h0
        rw [h0, Nat.add_zero] at hdvd
        exact hdvd0 hdvd
      simp only [almostLeastCommonMultipleGo]
      rw [if_neg hc1, if_neg hc2]
      have hbmrw : ((j * max a b : ℕ) : ℚ) + ((max a b : ℕ) : ℚ)
          = (((j + 1) * max a b : ℕ) : ℚ) := by
        push_cast
        ring
      rw [hbmrw]
      refine ih (j + 1) (by omega) ⟨d - 1, by omega, ?_⟩
      rw [show (j + 1) + (d - 1) = j + d by omega]
      exact hdvd

/-- C3: for all positive integers `a`, `b`, `almostLeastCommonMultiple` with
error `0` terminates (fuel `min a b` suffices) and returns multipliers with
`a·m1 = b·m2` exactly. -/
theorem C3_alcm_exact (a b : ℕ) (ha : 0 < a) (hb : 0 < b) :
    ∃ m1 m2 : ℚ, almostLeastCommonMultiple (a : ℚ) (b : ℚ) 0 (min a b) = some (m1, m2)
    ∧ (a : ℚ) * m1 = (b : ℚ) * m2 := by
  rw [almostLeastCommonMultiple,
    show max (a : ℚ) (b : ℚ) = ((max a b : ℕ) : ℚ) from (Nat.cast_max a b).symm,
    show min (a : ℚ) (b : ℚ) = ((min a b : ℕ) : ℚ) from (Nat.cast_min a b).symm]
  nth_rewrite 2 [show ((max a b : ℕ) : ℚ) = ((1 * max a b : ℕ) : ℚ) from by
    rw [Nat.one_mul]]
  apply alcmGo_exact_spec a b ha hb (min a b) 1 Nat.one_pos
  have hgdL := Nat.gcd_dvd_left (min a b) (max a b)
  have hgdR := Nat.gcd_dvd_right (min a b) (max a b)
  set g := Nat.gcd (min a b) (max a b) with hg
  obtain ⟨t, ht⟩ := hgdL
  obtain ⟨u, hu⟩ := hgdR
  have hLpos : 0 < min a b := lt_min ha hb
  have ht0 : t ≠ 0 := by
    intro h0
    rw [h0, Nat.mul_zero] at ht
    exact absurd ht (ne_of_gt hLpos)
  have htle : t ≤ min a b := Nat.le_of_dvd hLpos ⟨g, by rw [ht, Nat.mul_comm]⟩
  refine ⟨t - 1, by omega, ?_⟩
  rw [show 1 + (t - 1) = t by omega]
  exact ⟨u, by rw [hu, ht]; ring⟩

/-- Witness for C3 at `a = 4`, `b = 6` (any exact pair works: `4·3 = 6·2`). -/
theorem C3_witness :
    (0 < 4 ∧ 0 < 6)
    ∧ ∃ m1 m2 : ℚ,
        almostLeastCommonMultiple ((4 : ℕ) : ℚ) ((6 : ℕ) : ℚ) 0 (min 4 6) = some (m1, m2)
        ∧ ((4 : ℕ) : ℚ) * m1 = ((6 : ℕ) : ℚ) * m2 :=
  ⟨⟨by norm_num, by norm_num⟩, C3_alcm_exact 4 6 (by norm_num) (by norm_num)⟩

end FactorioCalc
